import Mathlib

set_option maxHeartbeats 1000000

/-! # A shallow embedding of the BAMSYSTEM account core (src/account.c)

This file embeds the account store of `src/account.c` (together with the
record model of `src/lib/account.h`) into Lean and proves the behavioural
properties stated in the specification.

Modelling conventions:
* `LLUINT` (`long long unsigned int`) values are naturals; arithmetic that
  can wrap in C carries an explicit `% 2 ^ 64`.
* `unsigned long` (the DJB2 accumulator) is 64 bits on the LP64 reference
  platform, hence the `% 2 ^ 64` in `hash_function`.
* The C code mutates a process-global hash table and key; the embedding
  passes that state explicitly.
* `double` load-factor arithmetic is modelled with rationals.  For the
  values the program produces (bucket counts `16 * 2 ^ k`, entry counts far
  below `2 ^ 53`) binary floating point evaluates `count / size` and the
  comparison with `0.75` exactly, so the rational model coincides with the
  C computation.
-/

/-- The `ACCOUNT` record of `lib/account.h`: a UUID string (`char UUID[37]`),
a password and a balance (both `LLUINT`, i.e. unsigned 64-bit). -/
structure ACCOUNT where
  UUID : String
  PASSWORD : Nat
  BALANCE : Nat
deriving DecidableEq, Repr

/-- The chained hash table of `account.c` (`AccountHashTable`): the bucket
array is a list of chains (`AccountNode` lists, head = most recent insert),
`size` is the bucket count, `count` the number of stored entries and
`load_factor_threshold` the resize threshold (a C `double`, modelled as a
rational). -/
structure AccountHashTable where
  buckets : List (List ACCOUNT)
  size : Nat
  count : Nat
  load_factor_threshold : ℚ
deriving DecidableEq, Repr

/-- `INITIAL_HASH_TABLE_SIZE` of `account.c`. -/
def INITIAL_HASH_TABLE_SIZE : Nat := 16

/-- `LOAD_FACTOR_THRESHOLD` of `account.c` (`0.75`, exactly representable). -/
def LOAD_FACTOR_THRESHOLD : ℚ := 3 / 4

/-- DJB2 hash of `account.c:hash_function`: `hash = hash * 33 + c` starting
from `5381`, accumulated in an `unsigned long` (wrapping at `2 ^ 64`), then
reduced modulo the bucket count. -/
def hash_function (str : String) (table_size : Nat) : Nat :=
  (str.data.foldl (fun h c => (h * 33 + c.toNat) % 2 ^ 64) 5381) % table_size

/-- `account.c:calculate_load_factor`: `count / size` as a `double`,
`0.0` when `size == 0`. -/
def calculate_load_factor (t : AccountHashTable) : ℚ :=
  if t.size = 0 then 0 else (t.count : ℚ) / (t.size : ℚ)

/-- The resize test of `account.c:hash_insert_account`:
`calculate_load_factor() >= load_factor_threshold`. -/
def load_factor_at_threshold (t : AccountHashTable) : Bool :=
  t.load_factor_threshold ≤ calculate_load_factor t

/-- One step of the rehash loop of `account.c:resize_hash_table`: the node
is prepended to the bucket chosen by `hash_function` modulo `n`
(the new size). -/
def rehash_one (n : Nat) (bs : List (List ACCOUNT)) (acc : ACCOUNT) :
    List (List ACCOUNT) :=
  bs.set (hash_function acc.UUID n)
    (acc :: bs.getD (hash_function acc.UUID n) [])

/-- `account.c:resize_hash_table`: allocate `2 * size` empty buckets and
re-insert every node, traversing the old buckets in index order and each
chain head-first (`join` lists the entries in exactly that order). -/
def resize_hash_table (t : AccountHashTable) : AccountHashTable :=
  { t with
    buckets := t.buckets.flatten.foldl (rehash_one (t.size * 2))
      (List.replicate (t.size * 2) [])
    size := t.size * 2 }

/-- The duplicate scan of `hash_insert_account` / `hash_update_account`:
is an entry with this UUID present in the chain? -/
def chain_contains (uuid : String) (l : List ACCOUNT) : Bool :=
  l.any fun a => a.UUID = uuid

/-- The in-place overwrite performed by the scan loop of
`hash_insert_account` / `hash_update_account`: the first node with a
matching UUID receives the new account value. -/
def chain_update (acc : ACCOUNT) : List ACCOUNT → List ACCOUNT
  | [] => []
  | a :: rest =>
      if a.UUID = acc.UUID then acc :: rest else a :: chain_update acc rest

/-- The overwrite branch of `hash_insert_account` (and of
`hash_update_account`): update the matching node in its bucket, leaving
`count` untouched. -/
def overwrite_entry (t : AccountHashTable) (acc : ACCOUNT) : AccountHashTable :=
  { t with
    buckets := t.buckets.set (hash_function acc.UUID t.size)
      (chain_update acc (t.buckets.getD (hash_function acc.UUID t.size) [])) }

/-- The new-node branch of `hash_insert_account`: prepend a fresh node to
the bucket chain and increment `count`. -/
def prepend_entry (t : AccountHashTable) (acc : ACCOUNT) : AccountHashTable :=
  { t with
    buckets := t.buckets.set (hash_function acc.UUID t.size)
      (acc :: t.buckets.getD (hash_function acc.UUID t.size) [])
    count := t.count + 1 }

/-- The post-resize part of `account.c:hash_insert_account`: 
either overwrite the existing entry in place or prepend a new node. -/
def insert_no_resize (t : AccountHashTable) (acc : ACCOUNT) : AccountHashTable :=
  if chain_contains acc.UUID
      (t.buckets.getD (hash_function acc.UUID t.size) []) then
    overwrite_entry t acc
  else
    prepend_entry t acc

/-- `account.c:hash_insert_account`: resize first when the load factor has
reached the threshold, then either overwrite the existing entry in place or
prepend a new node.  (The C function can also fail on `malloc` failure or on
an uninitialised table, leaving the table unchanged; allocation failure is
not modelled.) -/
def hash_insert_account (t : AccountHashTable) (acc : ACCOUNT) : AccountHashTable :=
  insert_no_resize (if load_factor_at_threshold t then resize_hash_table t else t) acc

/-- `account.c:hash_find_account`: scan the chain of the target bucket and
return the matching account (the C function returns a pointer into the
table; the model returns the account value). -/
def hash_find_account (t : AccountHashTable) (uuid : String) : Option ACCOUNT :=
  (t.buckets.getD (hash_function uuid t.size) []).find? fun a => a.UUID = uuid

/-- `account.c:hash_update_account`: overwrite in place when the UUID is
already present in its bucket (no resize check on this path), otherwise
fall back to `hash_insert_account`. -/
def hash_update_account (t : AccountHashTable) (acc : ACCOUNT) : AccountHashTable :=
  if chain_contains acc.UUID
      (t.buckets.getD (hash_function acc.UUID t.size) []) then
    overwrite_entry t acc
  else
    hash_insert_account t acc

/-- The erase step of `account.c:hash_delete_account`: unlink the first node
of the chain whose UUID matches. -/
def chain_erase (uuid : String) : List ACCOUNT → List ACCOUNT
  | [] => []
  | a :: rest => if a.UUID = uuid then rest else a :: chain_erase uuid rest

/-- `account.c:hash_delete_account`: unlink the matching node and decrement
`count`; report `false` when no entry matches. -/
def hash_delete_account (t : AccountHashTable) (uuid : String) :
    AccountHashTable × Bool :=
  if chain_contains uuid (t.buckets.getD (hash_function uuid t.size) []) then
    ({ t with
        buckets := t.buckets.set (hash_function uuid t.size)
          (chain_erase uuid (t.buckets.getD (hash_function uuid t.size) []))
        count := t.count - 1 }, true)
  else (t, false)

/-- The table produced by `account.c:init_account_hash_table`: sixteen empty
buckets, no entries, threshold `0.75`. -/
def init_account_hash_table : AccountHashTable :=
  { buckets := List.replicate INITIAL_HASH_TABLE_SIZE []
    size := INITIAL_HASH_TABLE_SIZE
    count := 0
    load_factor_threshold := LOAD_FACTOR_THRESHOLD }

/-! ## Well-formedness of reachable hash tables

`HTWF` collects the invariants that `init_account_hash_table` establishes
and every table operation of `account.c` preserves: the `size` field tracks
the bucket array, every entry sits in the bucket chosen by `hash_function`,
UUIDs are pairwise distinct among stored entries, `count` tracks the number
of entries, the threshold keeps its initial value `0.75`, and the bucket
count is `16 * 2 ^ k` (initial size 16, doubled by each resize). -/

/-- Every entry sits in the bucket selected by `hash_function` modulo `n`. -/
def BucketsWF (n : Nat) (bs : List (List ACCOUNT)) : Prop :=
  ∀ i (h : i < bs.length), ∀ a ∈ bs[i], hash_function a.UUID n = i

/-- The entries of a table, in the order `resize_hash_table` traverses
them (bucket order, each chain head first). -/
def entries (t : AccountHashTable) : List ACCOUNT := t.buckets.flatten

/-- Invariant of every table reachable from `init_account_hash_table`
through the operations of `account.c`. -/
structure HTWF (t : AccountHashTable) : Prop where
  size_eq : t.buckets.length = t.size
  size_pow : ∃ k, t.size = 16 * 2 ^ k
  wf : BucketsWF t.size t.buckets
  nodup : ((entries t).map ACCOUNT.UUID).Nodup
  count_eq : t.count = (entries t).length
  thr : t.load_factor_threshold = 3 / 4

theorem HTWF.size_pos {t : AccountHashTable} (h : HTWF t) : 0 < t.size := by
  obtain ⟨k, hk⟩ := h.size_pow
  rw [hk]; positivity

theorem hash_function_lt (str : String) {n : Nat} (hn : 0 < n) :
    hash_function str n < n :=
  Nat.mod_lt _ hn

theorem entries_init : entries init_account_hash_table = [] := by
  rw [entries, init_account_hash_table]
  rw [List.flatten_eq_nil_iff]
  intro l hl
  exact (List.mem_replicate.1 hl).2

theorem init_WF : HTWF init_account_hash_table := by
  refine ⟨by simp [init_account_hash_table, INITIAL_HASH_TABLE_SIZE], ⟨0, by
    simp [init_account_hash_table, INITIAL_HASH_TABLE_SIZE]⟩, ?_, ?_, ?_, by
    simp [init_account_hash_table, LOAD_FACTOR_THRESHOLD]⟩
  · intro i hi a ha
    simp only [init_account_hash_table] at ha
    rw [List.getElem_replicate] at ha
    exact absurd ha (List.not_mem_nil a)
  · rw [entries_init]; simp
  · rw [entries_init]; rfl

/-! ### Chain-level lemmas -/

theorem chain_contains_eq_isSome (u : String) (l : List ACCOUNT) :
    chain_contains u l = (l.find? fun a => a.UUID = u).isSome := by
  induction l with
  | nil => simp [chain_contains]
  | cons a rest ih =>
      by_cases h : a.UUID = u <;>
        simp [chain_contains, List.any_cons, List.find?_cons, h] <;>
        simpa [chain_contains] using ih

theorem chain_update_map_uuid (acc : ACCOUNT) (l : List ACCOUNT) :
    (chain_update acc l).map ACCOUNT.UUID = l.map ACCOUNT.UUID := by
  induction l with
  | nil => rfl
  | cons a rest ih =>
      by_cases h : a.UUID = acc.UUID <;> simp [chain_update, h, ih]

theorem chain_update_subset {acc x : ACCOUNT} {l : List ACCOUNT}
    (hx : x ∈ chain_update acc l) : x = acc ∨ x ∈ l := by
  induction l with
  | nil => simp [chain_update] at hx
  | cons a rest ih =>
      by_cases h : a.UUID = acc.UUID
      · simp [chain_update, h] at hx
        rcases hx with hx | hx
        · exact Or.inl hx
        · exact Or.inr (by simp [hx])
      · simp [chain_update, h] at hx
        rcases hx with hx | hx
        · exact Or.inr (by simp [hx])
        · rcases ih hx with h1 | h1
          · exact Or.inl h1
          · exact Or.inr (by simp [h1])

theorem find?_chain_update_self {acc : ACCOUNT} {l : List ACCOUNT}
    (hc : chain_contains acc.UUID l = true) :
    (chain_update acc l).find? (fun a => a.UUID = acc.UUID) = some acc := by
  induction l with
  | nil => simp [chain_contains] at hc
  | cons a rest ih =>
      by_cases h : a.UUID = acc.UUID
      · simp [chain_update, h, List.find?_cons]
      · have hc' : chain_contains acc.UUID rest = true := by
          simpa [chain_contains, List.any_cons, h] using hc
        simp [chain_update, h, List.find?_cons, ih hc']

theorem find?_chain_update_ne {acc : ACCOUNT} {u : String} (hu : u ≠ acc.UUID)
    (l : List ACCOUNT) :
    (chain_update acc l).find? (fun a => a.UUID = u)
      = l.find? (fun a => a.UUID = u) := by
  induction l with
  | nil => rfl
  | cons a rest ih =>
      by_cases h : a.UUID = acc.UUID
      · have h1 : ¬acc.UUID = u := fun hh => hu hh.symm
        have h2 : ¬a.UUID = u := by rw [h]; exact h1
        simp [chain_update, h, List.find?_cons, h1, h2]
      · have h3 : ¬u = acc.UUID := hu
        by_cases h2 : a.UUID = u
        · simp [chain_update, h, h3, List.find?_cons, h2]
        · simp [chain_update, h, h3, List.find?_cons, h2, ih]

/-! ### Bucket-array lemmas -/

theorem flatten_set_cons (bs : List (List ACCOUNT)) (i : Nat)
    (h : i < bs.length) (x : ACCOUNT) :
    (bs.set i (x :: bs[i])).flatten.Perm (x :: bs.flatten) := by
  induction bs generalizing i with
  | nil => simp at h
  | cons b bs ih =>
      cases i with
      | zero => simp
      | succ i =>
          have h' : i < bs.length := by simpa using h
          simp only [List.set, List.flatten_cons, List.getElem_cons_succ]
          exact ((ih i h').append_left b).trans List.perm_middle

theorem flatten_decomp (bs : List (List ACCOUNT)) (i : Nat)
    (h : i < bs.length) :
    bs.flatten = (bs.take i).flatten ++ bs[i] ++ (bs.drop (i + 1)).flatten := by
  conv_lhs => rw [← List.take_append_drop i bs]
  rw [List.flatten_append, List.drop_eq_getElem_cons h, List.flatten_cons,
    List.append_assoc]

theorem flatten_set (bs : List (List ACCOUNT)) (i : Nat)
    (h : i < bs.length) (c : List ACCOUNT) :
    (bs.set i c).flatten
      = (bs.take i).flatten ++ c ++ (bs.drop (i + 1)).flatten := by
  rw [List.set_eq_take_append_cons_drop, if_pos h, List.flatten_append,
    List.flatten_cons, List.append_assoc]

/-! ### Characterisation of `hash_find_account` on well-formed tables -/

theorem hash_find_spec {t : AccountHashTable} {u : String} {a : ACCOUNT}
    (h : hash_find_account t u = some a) : a ∈ entries t ∧ a.UUID = u := by
  unfold hash_find_account at h
  constructor
  · have hm := List.mem_of_find?_eq_some h
    by_cases hi : hash_function u t.size < t.buckets.length
    · rw [List.getD_eq_getElem _ _ hi] at hm
      exact List.mem_flatten.2 ⟨_, List.getElem_mem hi, hm⟩
    · rw [List.getD_eq_default _ _ (Nat.le_of_not_lt hi)] at hm
      exact absurd hm (List.not_mem_nil a)
  · have := List.find?_some h
    simpa using this

theorem mem_hash_find {t : AccountHashTable} (ht : HTWF t) {a : ACCOUNT}
    {u : String} (ha : a ∈ entries t) (hu : a.UUID = u) :
    hash_find_account t u = some a := by
  obtain ⟨l, hl, hal⟩ := List.mem_flatten.1 ha
  obtain ⟨i, hi, rfl⟩ := List.mem_iff_getElem.1 hl
  have hidx : hash_function a.UUID t.size = i := ht.wf i hi a hal
  unfold hash_find_account
  rw [← hu, hidx, List.getD_eq_getElem _ _ hi]
  cases hfind : (t.buckets[i]).find? (fun b => b.UUID = a.UUID) with
  | none =>
      rw [List.find?_eq_none] at hfind
      exact absurd (by simp : decide (a.UUID = a.UUID) = true) (hfind a hal)
  | some b =>
      have hb1 : b.UUID = a.UUID := by simpa using List.find?_some hfind
      have hb2 : b ∈ t.buckets[i] := List.mem_of_find?_eq_some hfind
      have hbe : b ∈ entries t := List.mem_flatten.2 ⟨_, List.getElem_mem hi, hb2⟩
      have : b = a := List.inj_on_of_nodup_map ht.nodup hbe ha hb1
      rw [this]

theorem hash_find_none {t : AccountHashTable} (ht : HTWF t) {u : String} :
    hash_find_account t u = none ↔ ∀ a ∈ entries t, a.UUID ≠ u := by
  constructor
  · intro h a ha hu
    rw [mem_hash_find ht ha hu] at h
    exact Option.noConfusion h
  · intro h
    cases hfind : hash_find_account t u with
    | none => rfl
    | some a =>
        obtain ⟨ha, hu⟩ := hash_find_spec hfind
        exact absurd hu (h a ha)

/-- Two well-formed tables holding the same entries (up to order) answer
every lookup identically, regardless of their bucket counts. -/
theorem hash_find_congr {t t' : AccountHashTable} (ht : HTWF t) (ht' : HTWF t')
    (hp : (entries t).Perm (entries t')) (u : String) :
    hash_find_account t u = hash_find_account t' u := by
  cases hfind : hash_find_account t' u with
  | none =>
      rw [hash_find_none ht' ] at hfind
      rw [hash_find_none ht]
      intro a ha
      exact hfind a (hp.mem_iff.1 ha)
  | some a =>
      obtain ⟨ha, hu⟩ := hash_find_spec hfind
      exact mem_hash_find ht (hp.mem_iff.2 ha) hu

/-! ### Resize preserves the entries and the invariant -/

theorem rehash_fold_length (n : Nat) (l : List ACCOUNT)
    (bs : List (List ACCOUNT)) :
    (l.foldl (rehash_one n) bs).length = bs.length := by
  induction l generalizing bs with
  | nil => rfl
  | cons a l ih => simp [List.foldl_cons, ih, rehash_one, List.length_set]

theorem rehash_fold_flatten (n : Nat) (hn : 0 < n) (l : List ACCOUNT)
    (bs : List (List ACCOUNT)) (hbs : bs.length = n) :
    (l.foldl (rehash_one n) bs).flatten.Perm (l ++ bs.flatten) := by
  induction l generalizing bs with
  | nil => simp
  | cons a l ih =>
      have hlt : hash_function a.UUID n < bs.length := by
        rw [hbs]; exact hash_function_lt _ hn
      have h1 : (rehash_one n bs a).flatten.Perm (a :: bs.flatten) := by
        unfold rehash_one
        rw [List.getD_eq_getElem _ _ hlt]
        exact flatten_set_cons bs _ hlt a
      have h2 := ih (rehash_one n bs a)
        (by simp [rehash_one, List.length_set, hbs])
      exact h2.trans ((h1.append_left l).trans List.perm_middle)

theorem rehash_fold_wf (n : Nat) (l : List ACCOUNT)
    (bs : List (List ACCOUNT)) (hbs : BucketsWF n bs) :
    BucketsWF n (l.foldl (rehash_one n) bs) := by
  induction l generalizing bs with
  | nil => exact hbs
  | cons a l ih =>
      refine ih (rehash_one n bs a) ?_
      intro i hi b hb
      have hi' : i < bs.length := by
        simpa [rehash_one, List.length_set] using hi
      unfold rehash_one at hb
      rw [List.getElem_set] at hb
      by_cases hcase : hash_function a.UUID n = i
      · subst hcase
        rw [if_pos rfl] at hb
        rcases List.mem_cons.1 hb with hb | hb
        · rw [hb]
        · by_cases hidx : hash_function a.UUID n < bs.length
          · rw [List.getD_eq_getElem _ _ hidx] at hb
            exact hbs _ hidx b hb
          · rw [List.getD_eq_default _ _ (Nat.le_of_not_lt hidx)] at hb
            exact absurd hb (List.not_mem_nil b)
      · rw [if_neg hcase] at hb
        exact hbs i hi' b hb

theorem flatten_replicate_nil (n : Nat) :
    (List.replicate n ([] : List ACCOUNT)).flatten = [] := by
  rw [List.flatten_eq_nil_iff]
  intro l hl
  exact (List.mem_replicate.1 hl).2

theorem resize_entries_perm {t : AccountHashTable} (ht : HTWF t) :
    (entries (resize_hash_table t)).Perm (entries t) := by
  have hp := rehash_fold_flatten (t.size * 2)
    (by have := ht.size_pos; omega) (entries t)
    (List.replicate (t.size * 2) []) (by rw [List.length_replicate])
  rw [flatten_replicate_nil, List.append_nil] at hp
  exact hp

theorem resize_WF {t : AccountHashTable} (ht : HTWF t) :
    HTWF (resize_hash_table t) := by
  have hperm := resize_entries_perm ht
  refine ⟨?_, ?_, ?_, ?_, ?_, ht.thr⟩
  · simp only [resize_hash_table]
    rw [rehash_fold_length, List.length_replicate]
  · obtain ⟨k, hk⟩ := ht.size_pow
    refine ⟨k + 1, ?_⟩
    show t.size * 2 = _
    rw [hk]; ring
  · refine rehash_fold_wf _ _ _ ?_
    intro i hi b hb
    rw [List.getElem_replicate] at hb
    exact absurd hb (List.not_mem_nil b)
  · exact (hperm.map ACCOUNT.UUID).symm.nodup ht.nodup
  · show t.count = _
    rw [ht.count_eq]
    exact hperm.length_eq.symm

theorem resize_size {t : AccountHashTable} :
    (resize_hash_table t).size = t.size * 2 := rfl

theorem resize_count {t : AccountHashTable} :
    (resize_hash_table t).count = t.count := rfl

theorem hash_find_resize {t : AccountHashTable} (ht : HTWF t) (u : String) :
    hash_find_account (resize_hash_table t) u = hash_find_account t u :=
  hash_find_congr (resize_WF ht) ht (resize_entries_perm ht) u

/-! ### The two insert branches -/

theorem chain_contains_bucket (t : AccountHashTable) (u : String) :
    chain_contains u (t.buckets.getD (hash_function u t.size) [])
      = (hash_find_account t u).isSome :=
  chain_contains_eq_isSome u _

theorem chain_update_length (acc : ACCOUNT) (l : List ACCOUNT) :
    (chain_update acc l).length = l.length := by
  have h := congrArg List.length (chain_update_map_uuid acc l)
  simpa using h

theorem contains_idx_lt {t : AccountHashTable} {acc : ACCOUNT}
    (hc : chain_contains acc.UUID
      (t.buckets.getD (hash_function acc.UUID t.size) []) = true) :
    hash_function acc.UUID t.size < t.buckets.length := by
  by_contra h
  rw [List.getD_eq_default _ _ (Nat.le_of_not_lt h)] at hc
  simp [chain_contains] at hc

theorem overwrite_count {t : AccountHashTable} {acc : ACCOUNT} :
    (overwrite_entry t acc).count = t.count := rfl

theorem overwrite_size {t : AccountHashTable} {acc : ACCOUNT} :
    (overwrite_entry t acc).size = t.size := rfl

theorem overwrite_WF {t : AccountHashTable} {acc : ACCOUNT} (ht : HTWF t)
    (hc : chain_contains acc.UUID
      (t.buckets.getD (hash_function acc.UUID t.size) []) = true) :
    HTWF (overwrite_entry t acc) := by
  have hlt := contains_idx_lt hc
  have hent : entries (overwrite_entry t acc)
      = (t.buckets.take (hash_function acc.UUID t.size)).flatten
        ++ chain_update acc (t.buckets[hash_function acc.UUID t.size])
        ++ (t.buckets.drop (hash_function acc.UUID t.size + 1)).flatten := by
    show (t.buckets.set _ (chain_update acc (t.buckets.getD _ []))).flatten = _
    rw [List.getD_eq_getElem _ _ hlt, flatten_set _ _ hlt]
  have hold : entries t
      = (t.buckets.take (hash_function acc.UUID t.size)).flatten
        ++ t.buckets[hash_function acc.UUID t.size]
        ++ (t.buckets.drop (hash_function acc.UUID t.size + 1)).flatten :=
    flatten_decomp t.buckets _ hlt
  refine ⟨?_, ht.size_pow, ?_, ?_, ?_, ht.thr⟩
  · show (t.buckets.set _ _).length = t.size
    rw [List.length_set]; exact ht.size_eq
  · intro j hj b hb
    have hj' : j < t.buckets.length := by
      simpa [overwrite_entry, List.length_set] using hj
    show hash_function b.UUID t.size = j
    simp only [overwrite_entry] at hb
    rw [List.getElem_set] at hb
    by_cases hcase : hash_function acc.UUID t.size = j
    · subst hcase
      rw [if_pos rfl, List.getD_eq_getElem _ _ hlt] at hb
      rcases chain_update_subset hb with hb | hb
      · rw [hb]
      · exact ht.wf _ hlt b hb
    · rw [if_neg hcase] at hb
      exact ht.wf j hj' b hb
  · show ((entries (overwrite_entry t acc)).map ACCOUNT.UUID).Nodup
    rw [hent]
    have : ((t.buckets.take (hash_function acc.UUID t.size)).flatten
        ++ chain_update acc (t.buckets[hash_function acc.UUID t.size])
        ++ (t.buckets.drop (hash_function acc.UUID t.size + 1)).flatten).map
          ACCOUNT.UUID = (entries t).map ACCOUNT.UUID := by
      rw [hold]
      simp [List.map_append, chain_update_map_uuid]
    rw [this]; exact ht.nodup
  · show t.count = (entries (overwrite_entry t acc)).length
    rw [hent, ht.count_eq, hold]
    simp [List.length_append, chain_update_length]

theorem overwrite_find_self {t : AccountHashTable} {acc : ACCOUNT}
    (hc : chain_contains acc.UUID
      (t.buckets.getD (hash_function acc.UUID t.size) []) = true) :
    hash_find_account (overwrite_entry t acc) acc.UUID = some acc := by
  have hlt := contains_idx_lt hc
  simp only [hash_find_account, overwrite_entry]
  rw [List.getD_eq_getElem _ _ (by rw [List.length_set]; exact hlt),
    List.getElem_set, if_pos rfl]
  exact find?_chain_update_self hc

theorem overwrite_find_ne {t : AccountHashTable} {acc : ACCOUNT} {u : String}
    (hc : chain_contains acc.UUID
      (t.buckets.getD (hash_function acc.UUID t.size) []) = true)
    (hu : u ≠ acc.UUID) :
    hash_find_account (overwrite_entry t acc) u = hash_find_account t u := by
  have hlt := contains_idx_lt hc
  simp only [hash_find_account, overwrite_entry]
  by_cases hju : hash_function u t.size = hash_function acc.UUID t.size
  · rw [hju]
    rw [List.getD_eq_getElem _ _ (by rw [List.length_set]; exact hlt),
      List.getElem_set, if_pos rfl, List.getD_eq_getElem _ _ hlt]
    exact find?_chain_update_ne hu _
  · by_cases hlt2 : hash_function u t.size < t.buckets.length
    · rw [List.getD_eq_getElem _ _ (by rw [List.length_set]; exact hlt2),
        List.getElem_set, if_neg (fun hh => hju hh.symm),
        List.getD_eq_getElem _ _ hlt2]
    · rw [List.getD_eq_default _ _ (by rw [List.length_set]; omega),
        List.getD_eq_default _ _ (by omega)]

theorem prepend_idx_lt {t : AccountHashTable} {acc : ACCOUNT} (ht : HTWF t) :
    hash_function acc.UUID t.size < t.buckets.length := by
  rw [ht.size_eq]; exact hash_function_lt _ ht.size_pos

theorem prepend_fresh {t : AccountHashTable} {acc : ACCOUNT} (ht : HTWF t)
    (hc : chain_contains acc.UUID
      (t.buckets.getD (hash_function acc.UUID t.size) []) = false) :
    ∀ a ∈ entries t, a.UUID ≠ acc.UUID := by
  intro a ha heq
  obtain ⟨l, hl, hal⟩ := List.mem_flatten.1 ha
  obtain ⟨i, hi, rfl⟩ := List.mem_iff_getElem.1 hl
  have hidx : hash_function a.UUID t.size = i := ht.wf i hi a hal
  rw [heq] at hidx
  have hcc : chain_contains acc.UUID
      (t.buckets.getD (hash_function acc.UUID t.size) []) = true := by
    rw [hidx, List.getD_eq_getElem _ _ hi]
    simp only [chain_contains, List.any_eq_true, decide_eq_true_eq]
    exact ⟨a, hal, heq⟩
  rw [hcc] at hc
  exact Bool.noConfusion hc

theorem prepend_entries {t : AccountHashTable} {acc : ACCOUNT} (ht : HTWF t) :
    (entries (prepend_entry t acc)).Perm (acc :: entries t) := by
  have hlt := @prepend_idx_lt t acc ht
  show (t.buckets.set _ (acc :: t.buckets.getD _ [])).flatten.Perm _
  rw [List.getD_eq_getElem _ _ hlt]
  exact flatten_set_cons _ _ hlt acc

theorem prepend_count {t : AccountHashTable} {acc : ACCOUNT} :
    (prepend_entry t acc).count = t.count + 1 := rfl

theorem prepend_size {t : AccountHashTable} {acc : ACCOUNT} :
    (prepend_entry t acc).size = t.size := rfl

theorem prepend_WF {t : AccountHashTable} {acc : ACCOUNT} (ht : HTWF t)
    (hc : chain_contains acc.UUID
      (t.buckets.getD (hash_function acc.UUID t.size) []) = false) :
    HTWF (prepend_entry t acc) := by
  have hlt := @prepend_idx_lt t acc ht
  have hperm := @prepend_entries t acc ht
  refine ⟨?_, ht.size_pow, ?_, ?_, ?_, ht.thr⟩
  · show (t.buckets.set _ _).length = t.size
    rw [List.length_set]; exact ht.size_eq
  · intro j hj b hb
    have hj' : j < t.buckets.length := by
      simpa [prepend_entry, List.length_set] using hj
    show hash_function b.UUID t.size = j
    simp only [prepend_entry] at hb
    rw [List.getElem_set] at hb
    by_cases hcase : hash_function acc.UUID t.size = j
    · subst hcase
      rw [if_pos rfl] at hb
      rcases List.mem_cons.1 hb with hb | hb
      · rw [hb]
      · rw [List.getD_eq_getElem _ _ hlt] at hb
        exact ht.wf _ hlt b hb
    · rw [if_neg hcase] at hb
      exact ht.wf j hj' b hb
  · refine ((hperm.map ACCOUNT.UUID).symm.nodup ?_ : _)
    rw [List.map_cons, List.nodup_cons]
    refine ⟨?_, ht.nodup⟩
    intro hmem
    obtain ⟨a, ha, hau⟩ := List.mem_map.1 hmem
    exact prepend_fresh ht hc a ha hau
  · show t.count + 1 = (entries (prepend_entry t acc)).length
    rw [hperm.length_eq, List.length_cons, ht.count_eq]

theorem prepend_find_self {t : AccountHashTable} {acc : ACCOUNT} (ht : HTWF t) :
    hash_find_account (prepend_entry t acc) acc.UUID = some acc := by
  have hlt := @prepend_idx_lt t acc ht
  simp only [hash_find_account, prepend_entry]
  rw [List.getD_eq_getElem _ _ (by rw [List.length_set]; exact hlt),
    List.getElem_set, if_pos rfl]
  simp [List.find?_cons]

theorem prepend_find_ne {t : AccountHashTable} {acc : ACCOUNT} {u : String}
    (ht : HTWF t) (hu : u ≠ acc.UUID) :
    hash_find_account (prepend_entry t acc) u = hash_find_account t u := by
  have hlt := @prepend_idx_lt t acc ht
  simp only [hash_find_account, prepend_entry]
  by_cases hju : hash_function u t.size = hash_function acc.UUID t.size
  · rw [hju]
    rw [List.getD_eq_getElem _ _ (by rw [List.length_set]; exact hlt),
      List.getElem_set, if_pos rfl, List.getD_eq_getElem _ _ hlt]
    have hpa : ¬acc.UUID = u := fun hh => hu hh.symm
    simp [List.find?_cons, hpa]
  · by_cases hlt2 : hash_function u t.size < t.buckets.length
    · rw [List.getD_eq_getElem _ _ (by rw [List.length_set]; exact hlt2),
        List.getElem_set, if_neg (fun hh => hju hh.symm),
        List.getD_eq_getElem _ _ hlt2]
    · rw [List.getD_eq_default _ _ (by rw [List.length_set]; omega),
        List.getD_eq_default _ _ (by omega)]

/-! ### Specification of `hash_insert_account` and `hash_update_account` -/

theorem insert_nr_WF {t : AccountHashTable} {acc : ACCOUNT} (ht : HTWF t) :
    HTWF (insert_no_resize t acc) := by
  unfold insert_no_resize
  by_cases hc : chain_contains acc.UUID
      (t.buckets.getD (hash_function acc.UUID t.size) []) = true
  · rw [if_pos hc]; exact overwrite_WF ht hc
  · rw [if_neg hc]; exact prepend_WF ht (Bool.eq_false_iff.2 hc)

theorem insert_nr_find_self {t : AccountHashTable} {acc : ACCOUNT}
    (ht : HTWF t) :
    hash_find_account (insert_no_resize t acc) acc.UUID = some acc := by
  unfold insert_no_resize
  by_cases hc : chain_contains acc.UUID
      (t.buckets.getD (hash_function acc.UUID t.size) []) = true
  · rw [if_pos hc]; exact overwrite_find_self hc
  · rw [if_neg hc]; exact prepend_find_self ht

theorem insert_nr_find_ne {t : AccountHashTable} {acc : ACCOUNT} {u : String}
    (ht : HTWF t) (hu : u ≠ acc.UUID) :
    hash_find_account (insert_no_resize t acc) u = hash_find_account t u := by
  unfold insert_no_resize
  by_cases hc : chain_contains acc.UUID
      (t.buckets.getD (hash_function acc.UUID t.size) []) = true
  · rw [if_pos hc]; exact overwrite_find_ne hc hu
  · rw [if_neg hc]; exact prepend_find_ne ht hu

theorem insert_nr_count {t : AccountHashTable} {acc : ACCOUNT} :
    (insert_no_resize t acc).count
      = if (hash_find_account t acc.UUID).isSome then t.count
        else t.count + 1 := by
  unfold insert_no_resize
  rw [chain_contains_bucket]
  by_cases hs : (hash_find_account t acc.UUID).isSome = true
  · rw [if_pos hs, if_pos hs]; rfl
  · rw [if_neg hs, if_neg hs]; rfl

theorem insert_WF {t : AccountHashTable} {acc : ACCOUNT} (ht : HTWF t) :
    HTWF (hash_insert_account t acc) := by
  unfold hash_insert_account
  by_cases hr : load_factor_at_threshold t = true
  · rw [if_pos hr]; exact insert_nr_WF (resize_WF ht)
  · rw [if_neg hr]; exact insert_nr_WF ht

theorem find_insert_self {t : AccountHashTable} {acc : ACCOUNT} (ht : HTWF t) :
    hash_find_account (hash_insert_account t acc) acc.UUID = some acc := by
  unfold hash_insert_account
  by_cases hr : load_factor_at_threshold t = true
  · rw [if_pos hr]; exact insert_nr_find_self (resize_WF ht)
  · rw [if_neg hr]; exact insert_nr_find_self ht

theorem find_insert_ne {t : AccountHashTable} {acc : ACCOUNT} {u : String}
    (ht : HTWF t) (hu : u ≠ acc.UUID) :
    hash_find_account (hash_insert_account t acc) u = hash_find_account t u := by
  unfold hash_insert_account
  by_cases hr : load_factor_at_threshold t = true
  · rw [if_pos hr, insert_nr_find_ne (resize_WF ht) hu, hash_find_resize ht]
  · rw [if_neg hr]; exact insert_nr_find_ne ht hu

theorem insert_count_old {t : AccountHashTable} {acc : ACCOUNT} {b : ACCOUNT}
    (ht : HTWF t) (h : hash_find_account t acc.UUID = some b) :
    (hash_insert_account t acc).count = t.count := by
  unfold hash_insert_account
  by_cases hr : load_factor_at_threshold t = true
  · rw [if_pos hr, insert_nr_count, hash_find_resize ht, h]
    rfl
  · rw [if_neg hr, insert_nr_count, h]
    rfl

theorem insert_count_new {t : AccountHashTable} {acc : ACCOUNT}
    (ht : HTWF t) (h : hash_find_account t acc.UUID = none) :
    (hash_insert_account t acc).count = t.count + 1 := by
  unfold hash_insert_account
  by_cases hr : load_factor_at_threshold t = true
  · rw [if_pos hr, insert_nr_count, hash_find_resize ht, h, resize_count]
    rfl
  · rw [if_neg hr, insert_nr_count, h]
    rfl

theorem update_WF {t : AccountHashTable} {acc : ACCOUNT} (ht : HTWF t) :
    HTWF (hash_update_account t acc) := by
  unfold hash_update_account
  by_cases hc : chain_contains acc.UUID
      (t.buckets.getD (hash_function acc.UUID t.size) []) = true
  · rw [if_pos hc]; exact overwrite_WF ht hc
  · rw [if_neg hc]; exact insert_WF ht

theorem find_update_self {t : AccountHashTable} {acc : ACCOUNT} (ht : HTWF t) :
    hash_find_account (hash_update_account t acc) acc.UUID = some acc := by
  unfold hash_update_account
  by_cases hc : chain_contains acc.UUID
      (t.buckets.getD (hash_function acc.UUID t.size) []) = true
  · rw [if_pos hc]; exact overwrite_find_self hc
  · rw [if_neg hc]; exact find_insert_self ht

theorem find_update_ne {t : AccountHashTable} {acc : ACCOUNT} {u : String}
    (ht : HTWF t) (hu : u ≠ acc.UUID) :
    hash_find_account (hash_update_account t acc) u = hash_find_account t u := by
  unfold hash_update_account
  by_cases hc : chain_contains acc.UUID
      (t.buckets.getD (hash_function acc.UUID t.size) []) = true
  · rw [if_pos hc]; exact overwrite_find_ne hc hu
  · rw [if_neg hc]; exact find_insert_ne ht hu

/-! ### Size and count bookkeeping for inserts -/

theorem insert_nr_size {t : AccountHashTable} {acc : ACCOUNT} :
    (insert_no_resize t acc).size = t.size := by
  unfold insert_no_resize
  by_cases hc : chain_contains acc.UUID
      (t.buckets.getD (hash_function acc.UUID t.size) []) = true
  · rw [if_pos hc]; rfl
  · rw [if_neg hc]; rfl

theorem insert_nr_count_le {t : AccountHashTable} {acc : ACCOUNT} :
    (insert_no_resize t acc).count ≤ t.count + 1 := by
  rw [insert_nr_count]
  by_cases hs : (hash_find_account t acc.UUID).isSome = true
  · rw [if_pos hs]; omega
  · rw [if_neg hs]

theorem HTWF.size_ge_16 {t : AccountHashTable} (h : HTWF t) : 16 ≤ t.size := by
  obtain ⟨k, hk⟩ := h.size_pow
  rw [hk]
  have : 1 ≤ 2 ^ k := Nat.one_le_two_pow
  omega

theorem HTWF.four_dvd_size {t : AccountHashTable} (h : HTWF t) :
    4 ∣ t.size := by
  obtain ⟨k, hk⟩ := h.size_pow
  exact ⟨4 * 2 ^ k, by rw [hk]; ring⟩

/-- On a well-formed table the `double` comparison of
`calculate_load_factor() >= load_factor_threshold` coincides with the
integer comparison `3 * size <= 4 * count`. -/
theorem load_factor_iff {t : AccountHashTable} (ht : HTWF t) :
    load_factor_at_threshold t = true ↔ 3 * t.size ≤ 4 * t.count := by
  have hs := ht.size_pos
  rw [load_factor_at_threshold, calculate_load_factor, if_neg (by omega),
    ht.thr, decide_eq_true_iff]
  rw [div_le_div_iff (by norm_num) (by exact_mod_cast hs)]
  constructor
  · intro h
    have h' : (3 : ℚ) * t.size ≤ 4 * t.count := by linarith
    exact_mod_cast h'
  · intro h
    have h' : (3 : ℚ) * t.size ≤ 4 * t.count := by exact_mod_cast h
    linarith

/-- Same translation for the load factor staying at or below the
threshold. -/
theorem load_factor_le_iff {t : AccountHashTable} (ht : HTWF t) :
    calculate_load_factor t ≤ t.load_factor_threshold
      ↔ 4 * t.count ≤ 3 * t.size := by
  have hs := ht.size_pos
  rw [calculate_load_factor, if_neg (by omega), ht.thr]
  rw [div_le_div_iff (by exact_mod_cast hs) (by norm_num)]
  constructor
  · intro h
    have h' : (4 : ℚ) * t.count ≤ 3 * t.size := by linarith
    exact_mod_cast h'
  · intro h
    have h' : (4 : ℚ) * t.count ≤ 3 * t.size := by exact_mod_cast h
    linarith

/-! ### Folding inserts of fresh, pairwise-distinct accounts -/

theorem find_init_none (u : String) :
    hash_find_account init_account_hash_table u = none := by
  rw [hash_find_none init_WF]
  intro a ha
  rw [entries_init] at ha
  exact absurd ha (List.not_mem_nil a)

theorem foldl_insert_spec (l : List ACCOUNT) (t : AccountHashTable)
    (ht : HTWF t) (hn : (l.map ACCOUNT.UUID).Nodup)
    (hfresh : ∀ a ∈ l, hash_find_account t a.UUID = none) :
    HTWF (l.foldl hash_insert_account t)
    ∧ (l.foldl hash_insert_account t).count = t.count + l.length
    ∧ (∀ a ∈ l,
        hash_find_account (l.foldl hash_insert_account t) a.UUID = some a)
    ∧ (∀ u, (∀ a ∈ l, a.UUID ≠ u) →
        hash_find_account (l.foldl hash_insert_account t) u
          = hash_find_account t u) := by
  induction l generalizing t with
  | nil => exact ⟨ht, by simp, by simp, fun u _ => rfl⟩
  | cons a l ih =>
      have ht1 : HTWF (hash_insert_account t a) := insert_WF ht
      rw [List.map_cons] at hn
      have hsplit := List.nodup_cons.1 hn
      have hanotin : a.UUID ∉ l.map ACCOUNT.UUID := hsplit.1
      have hfresh1 : ∀ b ∈ l,
          hash_find_account (hash_insert_account t a) b.UUID = none := by
        intro b hb
        have hne : b.UUID ≠ a.UUID := fun h =>
          hanotin (h ▸ List.mem_map_of_mem ACCOUNT.UUID hb)
        rw [find_insert_ne ht hne]
        exact hfresh b (List.mem_cons_of_mem _ hb)
      obtain ⟨hwf', hcount', hfind', hother'⟩ :=
        ih (hash_insert_account t a) ht1 hsplit.2 hfresh1
      refine ⟨hwf', ?_, ?_, ?_⟩
      · rw [List.foldl_cons, hcount',
          insert_count_new ht (hfresh a (List.mem_cons_self a l)),
          List.length_cons]
        omega
      · intro b hb
        rw [List.foldl_cons]
        rcases List.mem_cons.1 hb with rfl | hb
        · rw [hother' b.UUID (fun c hc hcu =>
            hanotin (hcu ▸ List.mem_map_of_mem ACCOUNT.UUID hc))]
          exact find_insert_self ht
        · exact hfind' b hb
      · intro u hu
        rw [List.foldl_cons,
          hother' u (fun c hc => hu c (List.mem_cons_of_mem _ hc)),
          find_insert_ne ht (hu a (List.mem_cons_self a l)).symm]

/-- **C2.** Inserting `N` accounts with pairwise distinct identifiers into
the freshly created table (16 buckets, so `N > 12 = 0.75 * 16` forces at
least one doubling resize on the way) leaves a table in which `find`
returns every inserted account and whose `count` equals `N`. -/
theorem claim_C2_resize_preserves_entries (l : List ACCOUNT)
    (hnodup : (l.map ACCOUNT.UUID).Nodup) (hN : 12 < l.length) :
    (∀ a ∈ l,
      hash_find_account (l.foldl hash_insert_account init_account_hash_table)
        a.UUID = some a)
    ∧ (l.foldl hash_insert_account init_account_hash_table).count
        = l.length := by
  have h := foldl_insert_spec l init_account_hash_table init_WF hnodup
    (fun a _ => find_init_none a.UUID)
  refine ⟨h.2.2.1, ?_⟩
  rw [h.2.1]
  show 0 + l.length = l.length
  omega

/-- Thirteen accounts with pairwise distinct identifiers (13 > 12 = 0.75 * 16,
so the 13th insert triggers the doubling resize). -/
def c2_list : List ACCOUNT :=
  [⟨"a", 1, 1⟩, ⟨"b", 1, 2⟩, ⟨"c", 1, 3⟩, ⟨"d", 1, 4⟩, ⟨"e", 1, 5⟩,
   ⟨"f", 1, 6⟩, ⟨"g", 1, 7⟩, ⟨"h", 1, 8⟩, ⟨"i", 1, 9⟩, ⟨"j", 1, 10⟩,
   ⟨"k", 1, 11⟩, ⟨"l", 1, 12⟩, ⟨"m", 1, 13⟩]

theorem claim_C2_witness :
    (∀ a ∈ c2_list,
      hash_find_account
        (c2_list.foldl hash_insert_account init_account_hash_table)
        a.UUID = some a)
    ∧ (c2_list.foldl hash_insert_account init_account_hash_table).count
        = c2_list.length :=
  claim_C2_resize_preserves_entries c2_list (by decide) (by decide)

/-- **C3.** Load-factor invariant: on a reachable (well-formed) table whose
load factor does not exceed the threshold, any insert leaves the load
factor at or below the threshold, because `hash_insert_account` doubles the
bucket array before inserting whenever `count / size` has reached the
threshold. -/
theorem claim_C3_load_factor_invariant (t : AccountHashTable) (acc : ACCOUNT)
    (ht : HTWF t)
    (hlf : calculate_load_factor t ≤ t.load_factor_threshold) :
    calculate_load_factor (hash_insert_account t acc)
      ≤ (hash_insert_account t acc).load_factor_threshold := by
  have ht' : HTWF (hash_insert_account t acc) := insert_WF ht
  rw [load_factor_le_iff ht']
  rw [load_factor_le_iff ht] at hlf
  have h16 := ht.size_ge_16
  obtain ⟨j, hj⟩ := ht.four_dvd_size
  have hcount : (hash_insert_account t acc).count ≤ t.count + 1 := by
    unfold hash_insert_account
    by_cases hr : load_factor_at_threshold t = true
    · rw [if_pos hr]
      calc (insert_no_resize (resize_hash_table t) acc).count
          ≤ (resize_hash_table t).count + 1 := insert_nr_count_le
        _ = t.count + 1 := by rw [resize_count]
    · rw [if_neg hr]; exact insert_nr_count_le
  by_cases hr : load_factor_at_threshold t = true
  · have hge := (load_factor_iff ht).1 hr
    have hsize : (hash_insert_account t acc).size = t.size * 2 := by
      unfold hash_insert_account
      rw [if_pos hr, insert_nr_size, resize_size]
    rw [hsize]
    omega
  · have hlt : ¬3 * t.size ≤ 4 * t.count := fun h =>
      hr ((load_factor_iff ht).2 h)
    have hsize : (hash_insert_account t acc).size = t.size := by
      unfold hash_insert_account
      rw [if_neg hr, insert_nr_size]
    rw [hsize]
    omega

theorem claim_C3_witness :
    calculate_load_factor
        (hash_insert_account init_account_hash_table ⟨"w3", 1, 2⟩)
      ≤ (hash_insert_account init_account_hash_table
          ⟨"w3", 1, 2⟩).load_factor_threshold :=
  claim_C3_load_factor_invariant init_account_hash_table ⟨"w3", 1, 2⟩
    init_WF (by
      norm_num [calculate_load_factor, init_account_hash_table,
        LOAD_FACTOR_THRESHOLD, INITIAL_HASH_TABLE_SIZE])

/-- **C8.** Idempotent upsert: inserting twice with the same identifier but
different balances overwrites the stored value (a later `find` returns the
second value) and leaves `count` unchanged relative to the state after the
first insert. -/
theorem claim_C8_idempotent_upsert (t : AccountHashTable) (a1 a2 : ACCOUNT)
    (ht : HTWF t) (huuid : a2.UUID = a1.UUID) (hbal : a2.BALANCE ≠ a1.BALANCE) :
    (hash_insert_account (hash_insert_account t a1) a2).count
        = (hash_insert_account t a1).count
    ∧ hash_find_account (hash_insert_account (hash_insert_account t a1) a2)
        a2.UUID = some a2 := by
  have ht1 : HTWF (hash_insert_account t a1) := insert_WF ht
  have hfind : hash_find_account (hash_insert_account t a1) a2.UUID
      = some a1 := by
    rw [huuid]; exact find_insert_self ht
  exact ⟨insert_count_old ht1 hfind, find_insert_self ht1⟩

theorem claim_C8_witness :
    (hash_insert_account
        (hash_insert_account init_account_hash_table ⟨"w8", 5, 100⟩)
        ⟨"w8", 5, 200⟩).count
      = (hash_insert_account init_account_hash_table ⟨"w8", 5, 100⟩).count
    ∧ hash_find_account
        (hash_insert_account
          (hash_insert_account init_account_hash_table ⟨"w8", 5, 100⟩)
          ⟨"w8", 5, 200⟩)
        (ACCOUNT.mk "w8" 5 200).UUID = some ⟨"w8", 5, 200⟩ :=
  claim_C8_idempotent_upsert init_account_hash_table ⟨"w8", 5, 100⟩
    ⟨"w8", 5, 200⟩ init_WF (by decide) (by decide)

/-! ## Byte-level record encoding and the XOR cipher -/

/-- The little-endian bytes of a 64-bit value, as `memcpy` lays a `LLUINT`
out on the little-endian reference platforms. -/
def encodeLE8 (n : Nat) : List Nat :=
  [n % 256, n / 2 ^ 8 % 256, n / 2 ^ 16 % 256, n / 2 ^ 24 % 256,
   n / 2 ^ 32 % 256, n / 2 ^ 40 % 256, n / 2 ^ 48 % 256, n / 2 ^ 56 % 256]

/-- Rebuilding a 64-bit value from its little-endian bytes. -/
def decodeLE8 (bs : List Nat) : Nat :=
  bs.getD 0 0 + bs.getD 1 0 * 2 ^ 8 + bs.getD 2 0 * 2 ^ 16
    + bs.getD 3 0 * 2 ^ 24 + bs.getD 4 0 * 2 ^ 32 + bs.getD 5 0 * 2 ^ 40
    + bs.getD 6 0 * 2 ^ 48 + bs.getD 7 0 * 2 ^ 56

theorem decode_encode (n : Nat) (h : n < 2 ^ 64) :
    decodeLE8 (encodeLE8 n) = n := by
  show n % 256 + n / 2 ^ 8 % 256 * 2 ^ 8 + n / 2 ^ 16 % 256 * 2 ^ 16
      + n / 2 ^ 24 % 256 * 2 ^ 24 + n / 2 ^ 32 % 256 * 2 ^ 32
      + n / 2 ^ 40 % 256 * 2 ^ 40 + n / 2 ^ 48 % 256 * 2 ^ 48
      + n / 2 ^ 56 % 256 * 2 ^ 56 = n
  omega

/-- The XOR loop of `account.c:xor_encrypt_decrypt`: byte `i` is XORed
with `key[i mod 16]`. -/
def xor_with_key (key : List Nat) (i : Nat) : List Nat → List Nat
  | [] => []
  | b :: rest => (b ^^^ key.getD (i % 16) 0) :: xor_with_key key (i + 1) rest

theorem xor_with_key_invol (key : List Nat) (i : Nat) (l : List Nat) :
    xor_with_key key i (xor_with_key key i l) = l := by
  induction l generalizing i with
  | nil => rfl
  | cons b rest ih => simp [xor_with_key, Nat.xor_cancel_right, ih]

theorem xor_with_key_length (key : List Nat) (i : Nat) (l : List Nat) :
    (xor_with_key key i l).length = l.length := by
  induction l generalizing i with
  | nil => rfl
  | cons b rest ih => simp [xor_with_key, ih]

/-! ## The process state of the account store -/

/-- One account file under `Card/`: the clear-text identifier line written
by `fprintf("%s\n", UUID)` and the binary payload written by `fwrite`.
(`load_account` reads them back sequentially: `fscanf("%36s\n")` for the
line, then `fread` for the payload.) -/
structure CardFile where
  uuid_line : String
  payload : List Nat
deriving DecidableEq, Repr

/-- The process-global state of `account.c` made explicit: the cipher key
(`g_system_key` with `g_key_loaded`), the `Card/` directory (filenames
without the `.card` extension mapped to contents), the global hash table,
and the run mode probed at startup (`get_run_mode() == MODE_SERVER`).
`file_writes` counts account-file writes (a ghost counter used to state
"no local write occurs") and `log` records the messages the
remote-mirroring code prints. -/
structure SysState where
  key : List Nat
  key_loaded : Bool
  files : List (String × CardFile)
  table : AccountHashTable
  run_mode_server : Bool
  file_writes : Nat
  log : List String
deriving DecidableEq, Repr

/-- `fopen("Card/<uuid>.card", "rb")`: look the file up by name. -/
def lookupA : List (String × CardFile) → String → Option CardFile
  | [], _ => none
  | (k, v) :: rest, u => if k = u then some v else lookupA rest u

/-- `fopen(..., "wb")` followed by the writes: create or overwrite the
file. -/
def setA : List (String × CardFile) → String → CardFile →
    List (String × CardFile)
  | [], u, v => [(u, v)]
  | (k, w) :: rest, u, v =>
      if k = u then (u, v) :: rest else (k, w) :: setA rest u v

/-- `remove(...)`: drop the file. -/
def removeA : List (String × CardFile) → String → List (String × CardFile)
  | [], _ => []
  | (k, w) :: rest, u => if k = u then rest else (k, w) :: removeA rest u

/-- `account.c:xor_encrypt_decrypt`: with the key loaded, XOR each byte
with `g_system_key[i % 16]`; with the key not loaded it prints a warning
(`"警告：密钥未加载"`) and returns with the buffer untouched — the function
returns `void`, so no failure reaches the caller. -/
def xor_encrypt_decrypt (s : SysState) (data : List Nat) : List Nat :=
  if s.key_loaded then xor_with_key s.key 0 data else data

/-- The file content `save_account` produces for an account: the
identifier line and the XOR-masked `PASSWORD ++ BALANCE` block. -/
def card_file_of (s : SysState) (acc : ACCOUNT) : CardFile :=
  ⟨acc.UUID,
   xor_encrypt_decrypt s (encodeLE8 acc.PASSWORD ++ encodeLE8 acc.BALANCE)⟩

/-- File-system outcome of one `save_account` call.  `account.c` checks the
`fopen` result (returning `false` before touching anything) but ignores the
return value of `fwrite`, so `shortWrite n` (only `n < 16` payload bytes
reach the disk) leaves a truncated file while the function still updates
the hash table and reports success. -/
inductive FsOutcome where
  | ok : FsOutcome
  | openFail : FsOutcome
  | shortWrite : Nat → FsOutcome
deriving DecidableEq, Repr

/-- `account.c:save_account` with the file-system outcome explicit:
encrypt the two fields, open the file (failure aborts with `false`), write
the identifier line and the payload (the `fwrite` result is not checked),
then mirror the record into the hash table via `hash_update_account` and
report success. -/
def save_account (io : FsOutcome) (s : SysState) (acc : ACCOUNT) :
    SysState × Bool :=
  match io with
  | .openFail => (s, false)
  | .shortWrite n =>
      ({ s with
          files := setA s.files acc.UUID
            ⟨acc.UUID, (card_file_of s acc).payload.take n⟩
          table := hash_update_account s.table acc
          file_writes := s.file_writes + 1 }, true)
  | .ok =>
      ({ s with
          files := setA s.files acc.UUID (card_file_of s acc)
          table := hash_update_account s.table acc
          file_writes := s.file_writes + 1 }, true)

/-- The token `fscanf(file, "%36s\n", ...)` reads from the identifier
line: skip leading white space, then at most 36 non-white-space
characters. -/
def s36_token (line : String) : List Char :=
  ((line.data.dropWhile fun c => c.isWhitespace).takeWhile
    fun c => !c.isWhitespace).take 36

/-- `fscanf(file, "%36s\n", acc->UUID)`: fails (returns 0 conversions)
when no token character can be read. -/
def fscanf_s36 (line : String) : Option String :=
  if s36_token line = [] then none else some (String.mk (s36_token line))

/-- The record `load_account` rebuilds from a card file body: decrypt the
first 16 payload bytes and split them into `PASSWORD` and `BALANCE`. -/
def decode_card (s : SysState) (id : String) (payload : List Nat) : ACCOUNT :=
  ⟨id, decodeLE8 ((xor_encrypt_decrypt s (payload.take 16)).take 8),
    decodeLE8 ((xor_encrypt_decrypt s (payload.take 16)).drop 8)⟩

/-- The six C white-space bytes that `fscanf` white-space directives
consume: space (0x20) and 0x09–0x0D. -/
def is_c_whitespace (b : Nat) : Bool :=
  b == 32 || (decide (9 ≤ b) && decide (b ≤ 13))

/-- The tail of the file-read path of `account.c:load_account`: parse the
identifier line (`fscanf` failure aborts), then read the payload with
`fread` (fewer than 16 bytes aborts), decrypt, rebuild the record, and
insert it into the hash table.  The trailing `\n` directive of
`fscanf(file, "%36s\n", ...)` consumes a maximal run of white space: the
newline that ends the identifier line and also any leading white-space
valued bytes of the binary payload that follows in the same stream, so
`fread` only sees the payload with that white-space prefix removed. -/
def parse_card (s : SysState) (file : CardFile) : SysState × Option ACCOUNT :=
  match fscanf_s36 file.uuid_line with
  | none => (s, none)
  | some id =>
      if (file.payload.dropWhile fun b => is_c_whitespace b).length < 16
      then (s, none)
      else
        ({ s with table :=
            hash_insert_account s.table (decode_card s id
              (file.payload.dropWhile fun b => is_c_whitespace b)) },
         some (decode_card s id
           (file.payload.dropWhile fun b => is_c_whitespace b)))

/-- The file-read path of `account.c:load_account`: open the card file
(`fopen` failure aborts) and parse it. -/
def load_from_file (s : SysState) (uuid : String) : SysState × Option ACCOUNT :=
  match lookupA s.files uuid with
  | none => (s, none)
  | some file => parse_card s file

/-- `account.c:load_account`: consult the hash table first; on a miss read
through the card file (warming the cache on success). -/
def load_account (s : SysState) (uuid : String) : SysState × Option ACCOUNT :=
  match hash_find_account s.table uuid with
  | some cached => (s, some cached)
  | none => load_from_file s uuid

/-- `account.c:delete_account_file`: `remove` the file (failure if it does
not exist), then delete the entry from the hash table. -/
def delete_account_file (s : SysState) (uuid : String) : SysState × Bool :=
  if (lookupA s.files uuid).isSome then
    ({ s with
        files := removeA s.files uuid
        table := (hash_delete_account s.table uuid).1 }, true)
  else (s, false)

/-- `account.c:list_all_accounts`: enumerate the card directory and load
every account (warming the cache), counting the successes. -/
def list_all_accounts (s : SysState) : SysState × Nat :=
  s.files.foldl
    (fun p kv =>
      match load_account p.1 kv.1 with
      | (s1, some _) => (s1, p.2 + 1)
      | (s1, none) => (s1, p.2))
    (s, 0)

/-! ## The sync engine (pull) and the business operations -/

/-- The body of the per-record loop of
`account.c:pull_accounts_from_server`: load the local record; if it is
missing, save the remote record with the password sentinel `0`; if its
balance differs from the remote one, save the remote balance with the
local password; otherwise count a success without writing. -/
def pull_step (s : SysState) (sc fc : Nat) (acc : ACCOUNT) :
    SysState × Nat × Nat :=
  match load_account s acc.UUID with
  | (s1, some local_acc) =>
      if local_acc.BALANCE ≠ acc.BALANCE then
        match save_account .ok s1 { acc with PASSWORD := local_acc.PASSWORD } with
        | (s2, true) => (s2, sc + 1, fc)
        | (s2, false) => (s2, sc, fc + 1)
      else (s1, sc + 1, fc)
  | (s1, none) =>
      match save_account .ok s1 { acc with PASSWORD := 0 } with
      | (s2, true) => (s2, sc + 1, fc)
      | (s2, false) => (s2, sc, fc + 1)

/-- The loop of `pull_accounts_from_server`, threading the store state and
the success/failure counters. -/
def pull_loop (p : SysState × Nat × Nat) (acc : ACCOUNT) :
    SysState × Nat × Nat :=
  pull_step p.1 p.2.1 p.2.2 acc

/-- `account.c:pull_accounts_from_server`: a no-op outside server mode;
otherwise process every record the server returned (the argument list is
the successful `api_fetch_all_accounts` response, at most 100 records) and
return the success count.  File-system failures inside the loop are not
modelled (each save takes the `.ok` outcome), matching the claims, which
quantify over runs whose local writes succeed. -/
def pull_accounts_from_server (s : SysState) (server_accounts : List ACCOUNT) :
    SysState × Nat :=
  if s.run_mode_server then
    ((server_accounts.foldl pull_loop (s, 0, 0)).1,
     (server_accounts.foldl pull_loop (s, 0, 0)).2.1)
  else (s, 0)

/-- The remote-mirroring tail every mutating business operation runs after
its local effect committed: in server mode attempt the matching remote API
call; on failure print a warning, on success print a confirmation —
either way the operation's result and local state are already fixed. -/
def remote_mirror (remote_ok : Bool) (okMsg warnMsg : String)
    (s : SysState) : SysState :=
  if s.run_mode_server then
    if remote_ok then { s with log := okMsg :: s.log }
    else { s with log := warnMsg :: s.log }
  else s

/-- The local part of `account.c:create_account`: validate the 7-digit
password, build the record with the freshly generated UUID and balance 0,
and save it.  (`generate_uuid_string` draws from the platform entropy
source; the generated identifier is passed in.) -/
def create_account_local (io : FsOutcome) (s : SysState) (new_uuid : String)
    (password : Nat) : SysState × Bool :=
  if password < 1000000 ∨ 9999999 < password then (s, false)
  else save_account io s ⟨new_uuid, password, 0⟩

/-- `account.c:create_account`: the local part, then the best-effort
remote mirror. -/
def create_account (io : FsOutcome) (remote_ok : Bool) (s : SysState)
    (new_uuid : String) (password : Nat) : SysState × Bool :=
  match create_account_local io s new_uuid password with
  | (s1, false) => (s1, false)
  | (s1, true) => (remote_mirror remote_ok "created on server" "warn: create sync failed" s1, true)

/-- The local part of `account.c:deposit`: list the accounts (warming the
cache; zero accounts aborts), load the account, check the password, check
the amount read from the console (`amount_pos` is the `amount > 0` test on
the entered value), then save the record with the balance increased by the
amount in cents (64-bit wrap-around as in C). -/
def deposit_local (io : FsOutcome) (s : SysState) (uuid : String)
    (password : Nat) (amount_pos : Bool) (amount_cents : Nat) :
    SysState × Bool :=
  match list_all_accounts s with
  | (s0, 0) => (s0, false)
  | (s0, _ + 1) =>
      match load_account s0 uuid with
      | (s1, none) => (s1, false)
      | (s1, some acc) =>
          if acc.PASSWORD ≠ password then (s1, false)
          else if ¬amount_pos then (s1, false)
          else save_account io s1
            { acc with BALANCE := (acc.BALANCE + amount_cents) % 2 ^ 64 }

/-- `account.c:deposit`: the local part, then the best-effort remote
mirror (`api_deposit`). -/
def deposit (io : FsOutcome) (remote_ok : Bool) (s : SysState) (uuid : String)
    (password : Nat) (amount_pos : Bool) (amount_cents : Nat) :
    SysState × Bool :=
  match deposit_local io s uuid password amount_pos amount_cents with
  | (s1, false) => (s1, false)
  | (s1, true) => (remote_mirror remote_ok "deposit synced" "warn: deposit sync failed" s1, true)

/-- The local part of `account.c:withdraw`: as for deposit, plus the
balance check (`InsufficientFunds`). -/
def withdraw_local (io : FsOutcome) (s : SysState) (uuid : String)
    (password : Nat) (amount_pos : Bool) (amount_cents : Nat) :
    SysState × Bool :=
  match list_all_accounts s with
  | (s0, 0) => (s0, false)
  | (s0, _ + 1) =>
      match load_account s0 uuid with
      | (s1, none) => (s1, false)
      | (s1, some acc) =>
          if acc.PASSWORD ≠ password then (s1, false)
          else if ¬amount_pos then (s1, false)
          else if acc.BALANCE < amount_cents then (s1, false)
          else save_account io s1 { acc with BALANCE := acc.BALANCE - amount_cents }

/-- `account.c:withdraw`: the local part, then the best-effort remote
mirror (`api_withdraw`). -/
def withdraw (io : FsOutcome) (remote_ok : Bool) (s : SysState) (uuid : String)
    (password : Nat) (amount_pos : Bool) (amount_cents : Nat) :
    SysState × Bool :=
  match withdraw_local io s uuid password amount_pos amount_cents with
  | (s1, false) => (s1, false)
  | (s1, true) => (remote_mirror remote_ok "withdraw synced" "warn: withdraw sync failed" s1, true)

/-- The local part of `account.c:transfer`: load and authenticate the
source account, reject self-transfers, load the target, validate the
amount and the balance, debit and credit, and save both records
(`!save_account(&acc_from) || !save_account(&acc_to)` — the second save is
skipped when the first fails, and a first-save success followed by a
second-save failure leaves the debit committed). -/
def transfer_local (io1 io2 : FsOutcome) (s : SysState)
    (uuid_from uuid_to : String) (password : Nat) (amount_pos : Bool)
    (amount_cents : Nat) : SysState × Bool :=
  match list_all_accounts s with
  | (s0, 0) => (s0, false)
  | (s0, _ + 1) =>
      match load_account s0 uuid_from with
      | (s1, none) => (s1, false)
      | (s1, some acc_from) =>
          if acc_from.PASSWORD ≠ password then (s1, false)
          else if uuid_from = uuid_to then (s1, false)
          else
            match load_account s1 uuid_to with
            | (s2, none) => (s2, false)
            | (s2, some acc_to) =>
                if ¬amount_pos then (s2, false)
                else if acc_from.BALANCE < amount_cents then (s2, false)
                else
                  match save_account io1 s2
                    { acc_from with BALANCE := acc_from.BALANCE - amount_cents } with
                  | (s3, false) => (s3, false)
                  | (s3, true) =>
                      match save_account io2 s3
                        { acc_to with BALANCE :=
                            (acc_to.BALANCE + amount_cents) % 2 ^ 64 } with
                      | (s4, false) => (s4, false)
                      | (s4, true) => (s4, true)

/-- `account.c:transfer`: the local part, then the best-effort remote
mirror (`api_transfer`). -/
def transfer (io1 io2 : FsOutcome) (remote_ok : Bool) (s : SysState)
    (uuid_from uuid_to : String) (password : Nat) (amount_pos : Bool)
    (amount_cents : Nat) : SysState × Bool :=
  match transfer_local io1 io2 s uuid_from uuid_to password amount_pos amount_cents with
  | (s1, false) => (s1, false)
  | (s1, true) => (remote_mirror remote_ok "transfer synced" "warn: transfer sync failed" s1, true)

/-- The local part of `account.c:delete_account`: load and authenticate
the account, refuse when the balance is non-zero, require the typed
confirmation `"yes"`, then remove the file and the cache entry. -/
def delete_account_local (s : SysState) (uuid : String) (password : Nat)
    (confirm_yes : Bool) : SysState × Bool :=
  match list_all_accounts s with
  | (s0, 0) => (s0, false)
  | (s0, _ + 1) =>
      match load_account s0 uuid with
      | (s1, none) => (s1, false)
      | (s1, some acc) =>
          if acc.PASSWORD ≠ password then (s1, false)
          else if 0 < acc.BALANCE then (s1, false)
          else if ¬confirm_yes then (s1, false)
          else delete_account_file s1 uuid

/-- `account.c:delete_account`: the local part, then the best-effort
remote mirror (`api_delete_account`). -/
def delete_account (remote_ok : Bool) (s : SysState) (uuid : String)
    (password : Nat) (confirm_yes : Bool) : SysState × Bool :=
  match delete_account_local s uuid password confirm_yes with
  | (s1, false) => (s1, false)
  | (s1, true) => (remote_mirror remote_ok "deleted on server" "warn: delete sync failed" s1, true)

/-- Equality of all locally persisted state: cipher key, card files, hash
table, run mode, and the file-write counter (everything except the console
log). -/
def localEq (s1 s2 : SysState) : Prop :=
  s1.key = s2.key ∧ s1.key_loaded = s2.key_loaded ∧ s1.files = s2.files
    ∧ s1.table = s2.table ∧ s1.run_mode_server = s2.run_mode_server
    ∧ s1.file_writes = s2.file_writes

/-! ### Association-list (card directory) lemmas -/

theorem lookupA_setA_self (fs : List (String × CardFile)) (u : String)
    (v : CardFile) : lookupA (setA fs u v) u = some v := by
  induction fs with
  | nil => simp [setA, lookupA]
  | cons kv rest ih =>
      obtain ⟨k, w⟩ := kv
      by_cases h : k = u
      · simp [setA, lookupA, h]
      · simp [setA, lookupA, h, ih]

theorem lookupA_setA_ne (fs : List (String × CardFile)) (u u' : String)
    (v : CardFile) (h : u' ≠ u) :
    lookupA (setA fs u v) u' = lookupA fs u' := by
  induction fs with
  | nil => simp [setA, lookupA, Ne.symm h]
  | cons kv rest ih =>
      obtain ⟨k, w⟩ := kv
      by_cases hk : k = u
      · subst hk
        have h2 : ¬k = u' := fun hh => h hh.symm
        simp [setA, lookupA, h2]
      · by_cases hk' : k = u'
        · subst hk'
          simp [setA, lookupA, hk]
        · simp [setA, lookupA, hk, hk', ih]

/-! ### C7: remote failures are soft -/

theorem localEq_refl (s : SysState) : localEq s s :=
  ⟨rfl, rfl, rfl, rfl, rfl, rfl⟩

theorem localEq_symm {a b : SysState} (h : localEq a b) : localEq b a := by
  obtain ⟨h1, h2, h3, h4, h5, h6⟩ := h
  exact ⟨h1.symm, h2.symm, h3.symm, h4.symm, h5.symm, h6.symm⟩

theorem localEq_trans {a b c : SysState} (h : localEq a b)
    (h' : localEq b c) : localEq a c := by
  obtain ⟨h1, h2, h3, h4, h5, h6⟩ := h
  obtain ⟨g1, g2, g3, g4, g5, g6⟩ := h'
  exact ⟨h1.trans g1, h2.trans g2, h3.trans g3, h4.trans g4, h5.trans g5,
    h6.trans g6⟩

/-- The remote-mirroring tail never touches the locally persisted state —
it only prints. -/
theorem mirror_localEq (b : Bool) (m w : String) (s : SysState) :
    localEq (remote_mirror b m w s) s := by
  unfold remote_mirror
  by_cases hs : s.run_mode_server = true
  · rw [if_pos hs]
    cases b
    · exact ⟨rfl, rfl, rfl, rfl, rfl, rfl⟩
    · exact ⟨rfl, rfl, rfl, rfl, rfl, rfl⟩
  · rw [if_neg hs]
    exact localEq_refl s

theorem mirror_pair_localEq (m w : String) (s1 : SysState) :
    localEq (remote_mirror false m w s1) (remote_mirror true m w s1) :=
  localEq_trans (mirror_localEq false m w s1)
    (localEq_symm (mirror_localEq true m w s1))

/-- **C7.** Soft-failure policy for remote mirroring: for each of the five
mutating business operations (create, deposit, withdraw, transfer,
delete), a failing remote API call (`remote_ok = false`) produces exactly
the same operation result and the same locally persisted state (files,
hash table, key, mode, write counter) as a successful one — in particular,
once the local persistence has succeeded the operation still reports
success, and the committed local effect is never reversed. -/
theorem claim_C7_remote_soft_failure :
    (∀ io s u p,
      (create_account io false s u p).2 = (create_account io true s u p).2
      ∧ localEq (create_account io false s u p).1
          (create_account io true s u p).1)
    ∧ (∀ io s u p apos amt,
      (deposit io false s u p apos amt).2 = (deposit io true s u p apos amt).2
      ∧ localEq (deposit io false s u p apos amt).1
          (deposit io true s u p apos amt).1)
    ∧ (∀ io s u p apos amt,
      (withdraw io false s u p apos amt).2
        = (withdraw io true s u p apos amt).2
      ∧ localEq (withdraw io false s u p apos amt).1
          (withdraw io true s u p apos amt).1)
    ∧ (∀ io1 io2 s uf ut p apos amt,
      (transfer io1 io2 false s uf ut p apos amt).2
        = (transfer io1 io2 true s uf ut p apos amt).2
      ∧ localEq (transfer io1 io2 false s uf ut p apos amt).1
          (transfer io1 io2 true s uf ut p apos amt).1)
    ∧ (∀ s u p confirm,
      (delete_account false s u p confirm).2
        = (delete_account true s u p confirm).2
      ∧ localEq (delete_account false s u p confirm).1
          (delete_account true s u p confirm).1) := by
  refine ⟨?_, ?_, ?_, ?_, ?_⟩
  · intro io s u p
    rcases h : create_account_local io s u p with ⟨s1, b⟩
    cases b
    · simp [create_account, h, localEq_refl]
    · simp [create_account, h, mirror_pair_localEq]
  · intro io s u p apos amt
    rcases h : deposit_local io s u p apos amt with ⟨s1, b⟩
    cases b
    · simp [deposit, h, localEq_refl]
    · simp [deposit, h, mirror_pair_localEq]
  · intro io s u p apos amt
    rcases h : withdraw_local io s u p apos amt with ⟨s1, b⟩
    cases b
    · simp [withdraw, h, localEq_refl]
    · simp [withdraw, h, mirror_pair_localEq]
  · intro io1 io2 s uf ut p apos amt
    rcases h : transfer_local io1 io2 s uf ut p apos amt with ⟨s1, b⟩
    cases b
    · simp [transfer, h, localEq_refl]
    · simp [transfer, h, mirror_pair_localEq]
  · intro s u p confirm
    rcases h : delete_account_local s u p confirm with ⟨s1, b⟩
    cases b
    · simp [delete_account, h, localEq_refl]
    · simp [delete_account, h, mirror_pair_localEq]

/-! ### C5 and C6: what a failed write / a missing key actually do -/

/-- A freshly started process: key generated and loaded, empty card
directory, freshly created hash table, server mode probed successfully. -/
def fresh_state : SysState :=
  { key := [1, 2, 3, 4, 5, 6, 7, 8, 9, 10, 11, 12, 13, 14, 15, 16]
    key_loaded := true
    files := []
    table := init_account_hash_table
    run_mode_server := true
    file_writes := 0
    log := [] }

def c5_acc : ACCOUNT := ⟨"u5", 1234567, 500⟩

/-- **C5 (counterexample).** The claim says that whenever the file-store
write fails — in any failure mode, including a short write of the payload —
the hash index is left completely unchanged.  False: when `fwrite`
persists 0 of the 16 payload bytes (its return value is never checked),
`save_account` still upserts the hash index and reports success. -/
theorem claim_C5_counterexample :
    (save_account (.shortWrite 0) fresh_state c5_acc).2 = true
    ∧ (save_account (.shortWrite 0) fresh_state c5_acc).1.table
        ≠ fresh_state.table := by
  refine ⟨rfl, ?_⟩
  intro heq
  have hfind : hash_find_account fresh_state.table c5_acc.UUID = none :=
    find_init_none _
  have hcount : (save_account (.shortWrite 0) fresh_state c5_acc).1.table.count
      = 1 := by
    show (hash_update_account fresh_state.table c5_acc).count = 1
    unfold hash_update_account
    rw [if_neg (by rw [chain_contains_bucket, hfind]; simp)]
    rw [@insert_count_new fresh_state.table c5_acc init_WF hfind]
    rfl
  rw [heq] at hcount
  simp [fresh_state, init_account_hash_table] at hcount

/-- **C5 (amended).** `save_account` writes the file store first and
upserts the hash index afterwards; the only write failure it detects is
`fopen` failing, in which case file store and hash index are left
completely unchanged and failure is reported.  A short write of the
payload goes undetected: the truncated file is left behind, the hash index
is still updated, and success is reported. -/
theorem claim_C5_amended (s : SysState) (acc : ACCOUNT) (n : Nat) :
    save_account .openFail s acc = (s, false)
    ∧ (save_account (.shortWrite n) s acc).2 = true
    ∧ (save_account (.shortWrite n) s acc).1.table
        = hash_update_account s.table acc
    ∧ (save_account (.shortWrite n) s acc).1.files
        = setA s.files acc.UUID ⟨acc.UUID, (card_file_of s acc).payload.take n⟩
    ∧ (save_account .ok s acc).1.table = hash_update_account s.table acc
    ∧ (save_account .ok s acc).1.files
        = setA s.files acc.UUID (card_file_of s acc) :=
  ⟨rfl, rfl, rfl, rfl, rfl, rfl⟩

/-- A process state in which the system key was never loaded
(`g_key_loaded == false`). -/
def c6_state : SysState :=
  { key := []
    key_loaded := false
    files := []
    table := init_account_hash_table
    run_mode_server := false
    file_writes := 0
    log := [] }

def c6_acc : ACCOUNT := ⟨"u6", 7654321, 300⟩

/-- **C6 (counterexample).** The claim says invoking the cipher transform
before the key is loaded makes the operation report failure rather than
letting the enclosing save or load complete successfully.  False: with
`g_key_loaded == false` the transform leaves the buffer unchanged (it
returns `void` after printing a warning, so no failure reaches the
caller) and the enclosing `save_account` still reports success. -/
theorem claim_C6_counterexample :
    xor_encrypt_decrypt c6_state [1, 2, 3] = [1, 2, 3]
    ∧ (save_account .ok c6_state c6_acc).2 = true :=
  ⟨rfl, rfl⟩

/-- **C6 (amended).** Invoking the cipher transform before the 16-byte
system key is loaded prints a warning and leaves the buffer untransformed;
being `void`, the transform reports no failure to its caller, and the
enclosing `save_account` completes successfully, persisting the unmasked
payload. -/
theorem claim_C6_amended (s : SysState) (data : List Nat) (acc : ACCOUNT)
    (h : s.key_loaded = false) :
    xor_encrypt_decrypt s data = data
    ∧ (save_account .ok s acc).2 = true
    ∧ (card_file_of s acc).payload
        = encodeLE8 acc.PASSWORD ++ encodeLE8 acc.BALANCE := by
  refine ⟨by simp [xor_encrypt_decrypt, h], rfl,
    by simp [card_file_of, xor_encrypt_decrypt, h]⟩

theorem claim_C6_witness :
    c6_state.key_loaded = false
    ∧ (xor_encrypt_decrypt c6_state [9] = [9]
      ∧ (save_account .ok c6_state c6_acc).2 = true
      ∧ (card_file_of c6_state c6_acc).payload
          = encodeLE8 c6_acc.PASSWORD ++ encodeLE8 c6_acc.BALANCE) :=
  ⟨rfl, claim_C6_amended c6_state [9] c6_acc rfl⟩

/-! ### C10: created accounts start with balance 0 -/

theorem mirror_files (b : Bool) (m w : String) (s : SysState) :
    (remote_mirror b m w s).files = s.files :=
  (mirror_localEq b m w s).2.2.1

theorem mirror_table (b : Bool) (m w : String) (s : SysState) :
    (remote_mirror b m w s).table = s.table :=
  (mirror_localEq b m w s).2.2.2.1

/-- **C10.** Every account created through `create_account` with a password
in the valid 7-digit range is persisted — as a card file and in the hash
index — with balance exactly 0; the record `create_account` builds always
carries `BALANCE = 0`, so it never produces an account with a nonzero
starting balance. -/
theorem claim_C10_create_zero_balance (remote_ok : Bool) (s : SysState)
    (new_uuid : String) (password : Nat) (ht : HTWF s.table)
    (hlo : 1000000 ≤ password) (hhi : password ≤ 9999999) :
    (create_account .ok remote_ok s new_uuid password).2 = true
    ∧ lookupA (create_account .ok remote_ok s new_uuid password).1.files
        new_uuid = some (card_file_of s ⟨new_uuid, password, 0⟩)
    ∧ hash_find_account
        (create_account .ok remote_ok s new_uuid password).1.table new_uuid
        = some ⟨new_uuid, password, 0⟩ := by
  have hval : ¬(password < 1000000 ∨ 9999999 < password) := by omega
  simp only [create_account, create_account_local, hval, if_false,
    save_account]
  refine ⟨trivial, ?_, ?_⟩
  · rw [mirror_files]
    exact lookupA_setA_self s.files new_uuid
      (card_file_of s ⟨new_uuid, password, 0⟩)
  · rw [mirror_table]
    exact find_update_self ht

theorem claim_C10_witness :
    (create_account .ok true fresh_state
        "11111111-1111-4111-8111-111111111111" 1234567).2 = true
    ∧ lookupA (create_account .ok true fresh_state
        "11111111-1111-4111-8111-111111111111" 1234567).1.files
        "11111111-1111-4111-8111-111111111111"
        = some (card_file_of fresh_state
            ⟨"11111111-1111-4111-8111-111111111111", 1234567, 0⟩)
    ∧ hash_find_account (create_account .ok true fresh_state
        "11111111-1111-4111-8111-111111111111" 1234567).1.table
        "11111111-1111-4111-8111-111111111111"
        = some ⟨"11111111-1111-4111-8111-111111111111", 1234567, 0⟩ :=
  claim_C10_create_zero_balance true fresh_state
    "11111111-1111-4111-8111-111111111111" 1234567 init_WF
    (by norm_num) (by norm_num)

/-! ### C4: file-store round trip -/

/-- A canonical UUID character: a decimal digit, a lower-case hex letter,
or a hyphen (compared via the code point). -/
def uuid_char (c : Char) : Prop :=
  (48 ≤ c.toNat ∧ c.toNat ≤ 57) ∨ (97 ≤ c.toNat ∧ c.toNat ≤ 102)
    ∨ c.toNat = 45

instance : DecidablePred uuid_char := fun c => by
  unfold uuid_char
  infer_instance

/-- A valid stored identifier: the 36-character canonical UUID string
form (`char UUID[37]`, §3 of the data model). -/
def valid_uuid (u : String) : Prop :=
  u.data.length = 36 ∧ ∀ c ∈ u.data, uuid_char c

instance (u : String) : Decidable (valid_uuid u) := by
  unfold valid_uuid
  infer_instance

theorem uuid_char_not_ws {c : Char} (h : uuid_char c) :
    c.isWhitespace = false := by
  rw [Bool.eq_false_iff]
  intro hws
  simp only [Char.isWhitespace, Bool.or_eq_true, decide_eq_true_eq] at hws
  have htn : c.toNat = 32 ∨ c.toNat = 9 ∨ c.toNat = 13 ∨ c.toNat = 10 := by
    rcases hws with ((hc | hc) | hc) | hc
    · exact Or.inl (by subst hc; decide)
    · exact Or.inr (Or.inl (by subst hc; decide))
    · exact Or.inr (Or.inr (Or.inl (by subst hc; decide)))
    · exact Or.inr (Or.inr (Or.inr (by subst hc; decide)))
  rcases h with ⟨a, b⟩ | ⟨a, b⟩ | a <;> omega

theorem takeWhile_not_ws {l : List Char}
    (h : ∀ c ∈ l, c.isWhitespace = false) :
    (l.takeWhile fun c => !c.isWhitespace) = l := by
  induction l with
  | nil => rfl
  | cons c rest ih =>
      rw [List.takeWhile_cons]
      have hc := h c (List.mem_cons_self c rest)
      simp only [hc, Bool.not_false, if_pos]
      rw [ih (fun d hd => h d (List.mem_cons_of_mem _ hd))]

theorem s36_token_eq {u : String} (hu : valid_uuid u) :
    s36_token u = u.data := by
  obtain ⟨hlen, hch⟩ := hu
  have hws : ∀ c ∈ u.data, c.isWhitespace = false :=
    fun c hc => uuid_char_not_ws (hch c hc)
  unfold s36_token
  have hdrop : (u.data.dropWhile fun c => c.isWhitespace) = u.data := by
    cases hd : u.data with
    | nil => rfl
    | cons c rest =>
        rw [List.dropWhile_cons]
        have hc := hws c (by rw [hd]; exact List.mem_cons_self c rest)
        rw [hc]
        simp
  rw [hdrop, takeWhile_not_ws hws, List.take_of_length_le (by omega)]

theorem fscanf_valid {u : String} (hu : valid_uuid u) :
    fscanf_s36 u = some u := by
  have ht := s36_token_eq hu
  unfold fscanf_s36
  rw [ht, if_neg (by
    intro hnil
    have := hu.1
    rw [hnil] at this
    simp at this)]

theorem xor_encrypt_decrypt_length (s : SysState) (d : List Nat) :
    (xor_encrypt_decrypt s d).length = d.length := by
  unfold xor_encrypt_decrypt
  by_cases hk : s.key_loaded = true
  · rw [if_pos hk, xor_with_key_length]
  · rw [if_neg hk]

/-- Dropping the C-white-space prefix is the identity on a byte list whose
first byte (if any) is not C white space. -/
theorem dropWhile_ws_eq_self {l : List Nat}
    (h : is_c_whitespace (l.getD 0 0) = false) :
    l.dropWhile (fun b => is_c_whitespace b) = l := by
  cases l with
  | nil => rfl
  | cons b t =>
      have hb : is_c_whitespace b = false := h
      rw [List.dropWhile_cons, hb]
      simp

/-- A well-formed account whose first encrypted payload byte under the
running key is the ASCII space: `1000225 % 256 = 33` and
`33 XXX key[0] = 33 XXX 1 = 32` (`XXX` denoting bytewise exclusive or). -/
def ws_acc : ACCOUNT := ⟨"22222222-2222-4222-8222-222222222222", 1000225, 500⟩

/-- **C4 (counterexample).** The claim promises the cold-cache round trip
for every valid account, but `fscanf(file, "%36s\n", ...)` at
`account.c:621` makes it fail whenever the first encrypted payload byte is
C white space: the `\n` directive consumes that byte along with the
newline, `fread` then returns fewer than 16 bytes, and `load_account`
returns failure.  Concretely: `ws_acc` is valid (canonical 36-character
identifier, 64-bit fields), its save succeeds, its first encrypted payload
byte is the space 0x20, and the reload on a fresh hash table returns
nothing instead of the saved account. -/
theorem claim_C4_counterexample :
    valid_uuid ws_acc.UUID
    ∧ ws_acc.PASSWORD < 2 ^ 64
    ∧ ws_acc.BALANCE < 2 ^ 64
    ∧ fresh_state.key_loaded = true
    ∧ (save_account .ok fresh_state ws_acc).2 = true
    ∧ is_c_whitespace ((card_file_of fresh_state ws_acc).payload.getD 0 0)
        = true
    ∧ (load_account { (save_account .ok fresh_state ws_acc).1 with
        table := init_account_hash_table } ws_acc.UUID).2 = none :=
  ⟨by decide, by decide, by decide, rfl, rfl, by decide, by decide⟩

/-- **C4 (amended).** Round trip through the store: after a successful
`save_account` of a valid account (36-character canonical identifier, any
64-bit password and balance) with the system key loaded, `load_account` of
the saved identifier succeeds and returns an account equal to the saved
one on all three fields on the post-save state itself (served from the
warm cache); and on the same files with a freshly created hash table
(served by parsing and decrypting the card file) it does so provided the
first encrypted payload byte is not C white space — otherwise the `\n`
directive of `fscanf("%36s\n")` swallows it and the cold reload fails. -/
theorem claim_C4_amended (s : SysState) (a : ACCOUNT) (ht : HTWF s.table)
    (hkey : s.key_loaded = true) (hu : valid_uuid a.UUID)
    (hp : a.PASSWORD < 2 ^ 64) (hb : a.BALANCE < 2 ^ 64) :
    (save_account .ok s a).2 = true
    ∧ (load_account (save_account .ok s a).1 a.UUID).2 = some a
    ∧ (is_c_whitespace ((card_file_of s a).payload.getD 0 0) = false →
        (load_account { (save_account .ok s a).1 with
          table := init_account_hash_table } a.UUID).2 = some a) := by
  refine ⟨rfl, ?_, ?_⟩
  · have hfind : hash_find_account (save_account .ok s a).1.table a.UUID
        = some a := by
      show hash_find_account (hash_update_account s.table a) a.UUID = some a
      exact find_update_self ht
    simp only [load_account, hfind]
  · intro hws
    have hfind : hash_find_account init_account_hash_table a.UUID = none :=
      find_init_none a.UUID
    have hdrop : (card_file_of s a).payload.dropWhile
        (fun b => is_c_whitespace b) = (card_file_of s a).payload :=
      dropWhile_ws_eq_self hws
    have hlook : lookupA (save_account .ok s a).1.files a.UUID
        = some (card_file_of s a) := by
      show lookupA (setA s.files a.UUID (card_file_of s a)) a.UUID = _
      exact lookupA_setA_self s.files a.UUID (card_file_of s a)
    have hpayload : (card_file_of s a).payload
        = xor_with_key s.key 0 (encodeLE8 a.PASSWORD ++ encodeLE8 a.BALANCE) := by
      show xor_encrypt_decrypt s _ = _
      rw [xor_encrypt_decrypt, if_pos hkey]
    have hplen : (card_file_of s a).payload.length = 16 := by
      rw [hpayload, xor_with_key_length]
      simp [encodeLE8]
    have hscan : fscanf_s36 (card_file_of s a).uuid_line = some a.UUID :=
      fscanf_valid hu
    have hdec : decode_card { (save_account .ok s a).1 with
        table := init_account_hash_table } a.UUID (card_file_of s a).payload
        = a := by
      unfold decode_card
      have hk2 : xor_encrypt_decrypt { (save_account .ok s a).1 with
          table := init_account_hash_table }
          ((card_file_of s a).payload.take 16)
          = encodeLE8 a.PASSWORD ++ encodeLE8 a.BALANCE := by
        rw [List.take_of_length_le (by rw [hplen])]
        show xor_encrypt_decrypt _ _ = _
        rw [xor_encrypt_decrypt]
        rw [if_pos (by show s.key_loaded = true; exact hkey)]
        show xor_with_key s.key 0 (card_file_of s a).payload = _
        rw [hpayload, xor_with_key_invol]
      rw [hk2]
      have h8 : (encodeLE8 a.PASSWORD).length = 8 := by simp [encodeLE8]
      rw [show (8 : Nat) = (encodeLE8 a.PASSWORD).length from h8.symm,
        List.take_left, List.drop_left, decode_encode a.PASSWORD hp,
        decode_encode a.BALANCE hb]
    have hfind2 : hash_find_account ({ (save_account .ok s a).1 with
        table := init_account_hash_table } : SysState).table a.UUID
        = none := hfind
    have hlook2 : lookupA ({ (save_account .ok s a).1 with
        table := init_account_hash_table } : SysState).files a.UUID
        = some (card_file_of s a) := hlook
    simp only [load_account, load_from_file, parse_card, hfind2, hlook2,
      hscan, hdrop, hplen, hdec]
    simp

/-- The concrete account of §8 of the specification. -/
def c4_acc : ACCOUNT :=
  ⟨"11111111-1111-4111-8111-111111111111", 1234567, 10000⟩

theorem claim_C4_witness :
    is_c_whitespace ((card_file_of fresh_state c4_acc).payload.getD 0 0)
        = false
    ∧ (save_account .ok fresh_state c4_acc).2 = true
    ∧ (load_account (save_account .ok fresh_state c4_acc).1 c4_acc.UUID).2
        = some c4_acc
    ∧ (load_account { (save_account .ok fresh_state c4_acc).1 with
          table := init_account_hash_table } c4_acc.UUID).2 = some c4_acc :=
  ⟨by decide,
   (claim_C4_amended fresh_state c4_acc init_WF rfl (by decide)
     (by decide) (by decide)).1,
   (claim_C4_amended fresh_state c4_acc init_WF rfl (by decide)
     (by decide) (by decide)).2.1,
   (claim_C4_amended fresh_state c4_acc init_WF rfl (by decide)
     (by decide) (by decide)).2.2 (by decide)⟩

/-! ### C1 and C9: behaviour of the pull reconciliation

`load_account` only ever changes the hash table (the cache-warming
insert); the lemmas below record this, together with how a pull step
affects lookups at its own identifier and at all others. -/

theorem parse_card_cases (s : SysState) (f : CardFile) :
    parse_card s f = (s, none)
    ∨ ∃ id, fscanf_s36 f.uuid_line = some id
        ∧ ¬(f.payload.dropWhile fun b => is_c_whitespace b).length < 16
        ∧ parse_card s f
          = ({ s with table :=
              hash_insert_account s.table (decode_card s id
                (f.payload.dropWhile fun b => is_c_whitespace b)) },
             some (decode_card s id
               (f.payload.dropWhile fun b => is_c_whitespace b))) := by
  cases hs : fscanf_s36 f.uuid_line with
  | none =>
      refine Or.inl ?_
      unfold parse_card
      rw [hs]
  | some id =>
      by_cases hlen : (f.payload.dropWhile fun b => is_c_whitespace b).length < 16
      · refine Or.inl ?_
        unfold parse_card
        rw [hs]
        show (if (f.payload.dropWhile fun b => is_c_whitespace b).length < 16
            then ((s, none) : SysState × Option ACCOUNT)
            else _) = _
        rw [if_pos hlen]
      · refine Or.inr ⟨id, rfl, hlen, ?_⟩
        unfold parse_card
        rw [hs]
        show (if (f.payload.dropWhile fun b => is_c_whitespace b).length < 16
            then ((s, none) : SysState × Option ACCOUNT)
            else ({ s with table :=
                hash_insert_account s.table (decode_card s id
                  (f.payload.dropWhile fun b => is_c_whitespace b)) },
              some (decode_card s id
                (f.payload.dropWhile fun b => is_c_whitespace b)))) = _
        rw [if_neg hlen]

theorem load_from_file_cases (s : SysState) (u : String) :
    load_from_file s u = (s, none)
    ∨ ∃ f, lookupA s.files u = some f
        ∧ load_from_file s u = parse_card s f := by
  unfold load_from_file
  cases hl : lookupA s.files u with
  | none => exact Or.inl rfl
  | some f => exact Or.inr ⟨f, rfl, rfl⟩

theorem load_account_cases (s : SysState) (u : String) :
    (load_account s u).1 = s
    ∨ ∃ acc, (load_account s u).1
          = { s with table := hash_insert_account s.table acc }
        ∧ (load_account s u).2 = some acc := by
  unfold load_account
  cases hf : hash_find_account s.table u with
  | some c => exact Or.inl rfl
  | none =>
      show (load_from_file s u).1 = s ∨
        ∃ acc, (load_from_file s u).1
            = { s with table := hash_insert_account s.table acc }
          ∧ (load_from_file s u).2 = some acc
      rcases load_from_file_cases s u with h | ⟨f, hl, h⟩
      · rw [h]
        exact Or.inl rfl
      · rw [h]
        rcases parse_card_cases s f with hp | ⟨id, hs, hlen, hp⟩ <;> rw [hp]
        · exact Or.inl rfl
        · exact Or.inr ⟨decode_card s id
            (f.payload.dropWhile fun b => is_c_whitespace b), rfl, rfl⟩

theorem load_account_files (s : SysState) (u : String) :
    (load_account s u).1.files = s.files := by
  rcases load_account_cases s u with h | ⟨acc, h, _⟩ <;> rw [h]

theorem load_account_file_writes (s : SysState) (u : String) :
    (load_account s u).1.file_writes = s.file_writes := by
  rcases load_account_cases s u with h | ⟨acc, h, _⟩ <;> rw [h]

theorem load_account_key (s : SysState) (u : String) :
    (load_account s u).1.key = s.key := by
  rcases load_account_cases s u with h | ⟨acc, h, _⟩ <;> rw [h]

theorem load_account_key_loaded (s : SysState) (u : String) :
    (load_account s u).1.key_loaded = s.key_loaded := by
  rcases load_account_cases s u with h | ⟨acc, h, _⟩ <;> rw [h]

theorem load_account_run_mode (s : SysState) (u : String) :
    (load_account s u).1.run_mode_server = s.run_mode_server := by
  rcases load_account_cases s u with h | ⟨acc, h, _⟩ <;> rw [h]

theorem load_account_WF {s : SysState} (ht : HTWF s.table) (u : String) :
    HTWF (load_account s u).1.table := by
  rcases load_account_cases s u with h | ⟨acc, h, _⟩ <;> rw [h]
  · exact ht
  · exact insert_WF ht

theorem load_account_hit {s : SysState} {u : String} {a : ACCOUNT}
    (h : hash_find_account s.table u = some a) :
    load_account s u = (s, some a) := by
  unfold load_account
  rw [h]

/-- A card file stored under a name parses back (when it parses at all) to
that very name as its identifier.  This holds for every file this program
writes — `save_account` stores the account under its own `UUID` and prints
the same `UUID` on the identifier line — and is the coherence property of
a reachable card directory. -/
def CoherentAt (fs : List (String × CardFile)) (u : String) : Prop :=
  ∀ f, lookupA fs u = some f →
    ∀ tok, fscanf_s36 f.uuid_line = some tok → tok = u

/-- On a coherent directory, a successful `load_account` leaves the loaded
record findable in the cache under the requested identifier. -/
theorem load_account_found {s : SysState} {u : String} {s1 : SysState}
    {a : ACCOUNT} (ht : HTWF s.table) (hco : CoherentAt s.files u)
    (h : load_account s u = (s1, some a)) :
    hash_find_account s1.table u = some a := by
  unfold load_account at h
  cases hf : hash_find_account s.table u with
  | some c =>
      rw [hf] at h
      have h1 : s = s1 := congrArg Prod.fst h
      have h2 : some c = some a := congrArg Prod.snd h
      rw [← h1, hf, h2]
  | none =>
      rw [hf] at h
      have h' : load_from_file s u = (s1, some a) := h
      rcases load_from_file_cases s u with hc | ⟨f, hl, hc⟩
      · rw [hc] at h'
        exact absurd (congrArg Prod.snd h') (by simp)
      · rw [hc] at h'
        rcases parse_card_cases s f with hp | ⟨id, hs, hlen, hp⟩ <;>
          rw [hp] at h'
        · exact absurd (congrArg Prod.snd h') (by simp)
        · have hid : id = u := hco f hl id hs
          have h1 : _ = s1 := congrArg Prod.fst h'
          have h2 : some (decode_card s id
              (f.payload.dropWhile fun b => is_c_whitespace b)) = some a :=
            congrArg Prod.snd h'
          have huu : (decode_card s id
              (f.payload.dropWhile fun b => is_c_whitespace b)).UUID = u := hid
          rw [← h1]
          show hash_find_account
            (hash_insert_account s.table (decode_card s id
              (f.payload.dropWhile fun b => is_c_whitespace b))) u
            = some a
          rw [← huu, find_insert_self ht, h2]

/-! ### Reduction of one pull step, given the load result -/

theorem card_file_of_congr {s1 s2 : SysState} (hk : s1.key = s2.key)
    (hkl : s1.key_loaded = s2.key_loaded) (acc : ACCOUNT) :
    card_file_of s1 acc = card_file_of s2 acc := by
  unfold card_file_of xor_encrypt_decrypt
  rw [hk, hkl]

theorem pull_step_eq_none {s : SysState} {sc fc : Nat} {r : ACCOUNT}
    {s1 : SysState} (h : load_account s r.UUID = (s1, none)) :
    pull_step s sc fc r
      = ((save_account .ok s1 { r with PASSWORD := 0 }).1, sc + 1, fc) := by
  unfold pull_step
  rw [h]
  rfl

theorem pull_step_eq_some_ne {s : SysState} {sc fc : Nat} {r : ACCOUNT}
    {s1 : SysState} {la : ACCOUNT}
    (h : load_account s r.UUID = (s1, some la))
    (hbal : la.BALANCE ≠ r.BALANCE) :
    pull_step s sc fc r
      = ((save_account .ok s1 { r with PASSWORD := la.PASSWORD }).1,
         sc + 1, fc) := by
  unfold pull_step
  rw [h]
  show (if la.BALANCE ≠ r.BALANCE then _ else _) = _
  rw [if_pos hbal]
  rfl

theorem pull_step_eq_some_eq {s : SysState} {sc fc : Nat} {r : ACCOUNT}
    {s1 : SysState} {la : ACCOUNT}
    (h : load_account s r.UUID = (s1, some la))
    (hbal : la.BALANCE = r.BALANCE) :
    pull_step s sc fc r = (s1, sc + 1, fc) := by
  unfold pull_step
  rw [h]
  show (if la.BALANCE ≠ r.BALANCE then _ else _) = _
  rw [if_neg (not_not_intro hbal)]

/-- **C1 (amended).** The pull step is a three-way case split on the
result of the local `load_account`, not on bare record existence.  When
the load fails — no card file under the remote identifier, or an existing
card file whose parse fails (for instance one whose first encrypted
payload byte is C white space, which the `\n` directive of
`fscanf("%36s\n")` consumes so `fread` comes up short) — a record with
`password = 0` and the remote balance is created and persisted (written as
a card file and upserted into the hash index), overwriting any such
unreadable record; when the load succeeds with a different balance, the
remote balance is persisted while the loaded password is preserved; when
the load succeeds with an equal balance, no local write occurs (the card
directory and the write counter are untouched — the load that performed
the comparison may only have warmed the read cache). -/
theorem claim_C1_pull_three_way (s : SysState) (sc fc : Nat) (acc : ACCOUNT)
    (ht : HTWF s.table) :
    ((load_account s acc.UUID).2 = none →
      lookupA (pull_step s sc fc acc).1.files acc.UUID
          = some (card_file_of s { acc with PASSWORD := 0 })
      ∧ hash_find_account (pull_step s sc fc acc).1.table acc.UUID
          = some { acc with PASSWORD := 0 }
      ∧ (pull_step s sc fc acc).1.file_writes = s.file_writes + 1)
    ∧ (∀ la, (load_account s acc.UUID).2 = some la →
        la.BALANCE ≠ acc.BALANCE →
      lookupA (pull_step s sc fc acc).1.files acc.UUID
          = some (card_file_of s { acc with PASSWORD := la.PASSWORD })
      ∧ hash_find_account (pull_step s sc fc acc).1.table acc.UUID
          = some { acc with PASSWORD := la.PASSWORD }
      ∧ (pull_step s sc fc acc).1.file_writes = s.file_writes + 1)
    ∧ (∀ la, (load_account s acc.UUID).2 = some la →
        la.BALANCE = acc.BALANCE →
      (pull_step s sc fc acc).1.files = s.files
      ∧ (pull_step s sc fc acc).1.file_writes = s.file_writes) := by
  refine ⟨?_, ?_, ?_⟩
  · intro hnone
    have hload : load_account s acc.UUID
        = ((load_account s acc.UUID).1, none) := Prod.ext rfl hnone
    rw [pull_step_eq_none hload]
    refine ⟨?_, ?_, ?_⟩
    · show lookupA (setA (load_account s acc.UUID).1.files acc.UUID
          (card_file_of (load_account s acc.UUID).1
            { acc with PASSWORD := 0 })) acc.UUID = _
      rw [lookupA_setA_self,
        card_file_of_congr (load_account_key s acc.UUID)
          (load_account_key_loaded s acc.UUID)]
    · exact find_update_self (load_account_WF ht acc.UUID)
    · show (load_account s acc.UUID).1.file_writes + 1 = s.file_writes + 1
      rw [load_account_file_writes]
  · intro la hsome hbal
    have hload : load_account s acc.UUID
        = ((load_account s acc.UUID).1, some la) := Prod.ext rfl hsome
    rw [pull_step_eq_some_ne hload hbal]
    refine ⟨?_, ?_, ?_⟩
    · show lookupA (setA (load_account s acc.UUID).1.files acc.UUID
          (card_file_of (load_account s acc.UUID).1
            { acc with PASSWORD := la.PASSWORD })) acc.UUID = _
      rw [lookupA_setA_self,
        card_file_of_congr (load_account_key s acc.UUID)
          (load_account_key_loaded s acc.UUID)]
    · exact find_update_self (load_account_WF ht acc.UUID)
    · show (load_account s acc.UUID).1.file_writes + 1 = s.file_writes + 1
      rw [load_account_file_writes]
  · intro la hsome hbal
    have hload : load_account s acc.UUID
        = ((load_account s acc.UUID).1, some la) := Prod.ext rfl hsome
    rw [pull_step_eq_some_eq hload hbal]
    exact ⟨load_account_files s acc.UUID, load_account_file_writes s acc.UUID⟩

theorem claim_C1_witness :
    hash_find_account (pull_step fresh_state 0 0 ⟨"r1", 777, 500⟩).1.table
      "r1" = some ⟨"r1", 0, 500⟩ :=
  ((claim_C1_pull_three_way fresh_state 0 0 ⟨"r1", 777, 500⟩ init_WF).1
    (by decide)).2.1

/-- The local state of the C1 counterexample: the card directory holds the
file `save_account` wrote for `ws_acc` (first encrypted payload byte a
space), the read cache is fresh. -/
def c1_state : SysState :=
  { key := fresh_state.key
    key_loaded := true
    files := (save_account .ok fresh_state ws_acc).1.files
    table := init_account_hash_table
    run_mode_server := true
    file_writes := 0
    log := [] }

/-- The remote record of the C1 counterexample: same identifier and same
balance as the locally stored `ws_acc`. -/
def c1_remote : ACCOUNT := ⟨"22222222-2222-4222-8222-222222222222", 0, 500⟩

/-- **C1 (counterexample).** The original claim keys its split on whether
a local record with the remote identifier exists: here one does exist — a
card file stored under the remote identifier, holding the same balance as
the remote record — so the claim promises the no-write branch with the
local password preserved.  The code instead keys on `load_account`, which
fails on this file (its first encrypted payload byte is the space 0x20,
consumed by the `\n` directive of `fscanf("%36s\n")` at `account.c:621`,
so `fread` returns fewer than 16 bytes): the pull step takes the
password-0 create branch, performs a file write and clobbers the stored
password with 0. -/
theorem claim_C1_counterexample :
    lookupA c1_state.files c1_remote.UUID
        = some (card_file_of fresh_state ws_acc)
    ∧ ws_acc.UUID = c1_remote.UUID
    ∧ ws_acc.BALANCE = c1_remote.BALANCE
    ∧ (load_account c1_state c1_remote.UUID).2 = none
    ∧ (pull_step c1_state 0 0 c1_remote).1.file_writes
        = c1_state.file_writes + 1
    ∧ hash_find_account (pull_step c1_state 0 0 c1_remote).1.table
        c1_remote.UUID = some { c1_remote with PASSWORD := 0 } := by
  have hr2 : (load_account c1_state c1_remote.UUID).2 = none := by decide
  have hload : load_account c1_state c1_remote.UUID
      = ((load_account c1_state c1_remote.UUID).1, none) := Prod.ext rfl hr2
  refine ⟨by decide, rfl, rfl, hr2, ?_, ?_⟩
  · rw [pull_step_eq_none hload]
    show (load_account c1_state c1_remote.UUID).1.file_writes + 1 = _
    rw [load_account_file_writes]
  · rw [pull_step_eq_none hload]
    exact find_update_self (load_account_WF init_WF c1_remote.UUID)

/-! ### C9: pull is idempotent on an unchanged remote dataset -/

theorem load_account_find_ne {s : SysState} {u u' : String}
    (ht : HTWF s.table) (hco : CoherentAt s.files u) (hne : u' ≠ u) :
    hash_find_account (load_account s u).1.table u'
      = hash_find_account s.table u' := by
  unfold load_account
  cases hf : hash_find_account s.table u with
  | some c => rfl
  | none =>
      show hash_find_account (load_from_file s u).1.table u' = _
      rcases load_from_file_cases s u with h | ⟨f, hl, h⟩
      · rw [h]
      · rw [h]
        rcases parse_card_cases s f with hp | ⟨id, hs, hlen, hp⟩ <;> rw [hp]
        have hid : id = u := hco f hl id hs
        show hash_find_account
          (hash_insert_account s.table (decode_card s id
            (f.payload.dropWhile fun b => is_c_whitespace b))) u' = _
        apply find_insert_ne ht
        show u' ≠ (decode_card s id
          (f.payload.dropWhile fun b => is_c_whitespace b)).UUID
        rw [show (decode_card s id
          (f.payload.dropWhile fun b => is_c_whitespace b)).UUID = id from rfl,
          hid]
        exact hne

theorem pull_step_WF {s : SysState} {sc fc : Nat} {r : ACCOUNT}
    (ht : HTWF s.table) : HTWF (pull_step s sc fc r).1.table := by
  cases hr2 : (load_account s r.UUID).2 with
  | none =>
      rw [pull_step_eq_none (Prod.ext rfl hr2)]
      exact update_WF (load_account_WF ht r.UUID)
  | some la =>
      by_cases hbal : la.BALANCE = r.BALANCE
      · rw [pull_step_eq_some_eq (Prod.ext rfl hr2) hbal]
        exact load_account_WF ht r.UUID
      · rw [pull_step_eq_some_ne (Prod.ext rfl hr2) hbal]
        exact update_WF (load_account_WF ht r.UUID)

theorem pull_step_run_mode {s : SysState} {sc fc : Nat} {r : ACCOUNT} :
    (pull_step s sc fc r).1.run_mode_server = s.run_mode_server := by
  cases hr2 : (load_account s r.UUID).2 with
  | none =>
      rw [pull_step_eq_none (Prod.ext rfl hr2)]
      show (load_account s r.UUID).1.run_mode_server = _
      exact load_account_run_mode s r.UUID
  | some la =>
      by_cases hbal : la.BALANCE = r.BALANCE
      · rw [pull_step_eq_some_eq (Prod.ext rfl hr2) hbal]
        exact load_account_run_mode s r.UUID
      · rw [pull_step_eq_some_ne (Prod.ext rfl hr2) hbal]
        show (load_account s r.UUID).1.run_mode_server = _
        exact load_account_run_mode s r.UUID

theorem pull_step_files_ne {s : SysState} {sc fc : Nat} {r : ACCOUNT}
    {u : String} (hne : u ≠ r.UUID) :
    lookupA (pull_step s sc fc r).1.files u = lookupA s.files u := by
  cases hr2 : (load_account s r.UUID).2 with
  | none =>
      rw [pull_step_eq_none (Prod.ext rfl hr2)]
      show lookupA (setA (load_account s r.UUID).1.files r.UUID _) u = _
      rw [lookupA_setA_ne _ _ _ _ hne, load_account_files]
  | some la =>
      by_cases hbal : la.BALANCE = r.BALANCE
      · rw [pull_step_eq_some_eq (Prod.ext rfl hr2) hbal,
          load_account_files]
      · rw [pull_step_eq_some_ne (Prod.ext rfl hr2) hbal]
        show lookupA (setA (load_account s r.UUID).1.files r.UUID _) u = _
        rw [lookupA_setA_ne _ _ _ _ hne, load_account_files]

theorem pull_step_find_ne {s : SysState} {sc fc : Nat} {r : ACCOUNT}
    {u : String} (ht : HTWF s.table) (hco : CoherentAt s.files r.UUID)
    (hne : u ≠ r.UUID) :
    hash_find_account (pull_step s sc fc r).1.table u
      = hash_find_account s.table u := by
  cases hr2 : (load_account s r.UUID).2 with
  | none =>
      rw [pull_step_eq_none (Prod.ext rfl hr2)]
      show hash_find_account
        (hash_update_account (load_account s r.UUID).1.table
          { r with PASSWORD := 0 }) u = _
      rw [@find_update_ne (load_account s r.UUID).1.table
          { r with PASSWORD := 0 } u (load_account_WF ht r.UUID) hne,
        load_account_find_ne ht hco hne]
  | some la =>
      by_cases hbal : la.BALANCE = r.BALANCE
      · rw [pull_step_eq_some_eq (Prod.ext rfl hr2) hbal]
        exact load_account_find_ne ht hco hne
      · rw [pull_step_eq_some_ne (Prod.ext rfl hr2) hbal]
        show hash_find_account
          (hash_update_account (load_account s r.UUID).1.table
            { r with PASSWORD := la.PASSWORD }) u = _
        rw [@find_update_ne (load_account s r.UUID).1.table
            { r with PASSWORD := la.PASSWORD } u (load_account_WF ht r.UUID)
            hne,
          load_account_find_ne ht hco hne]

theorem pull_step_establishes {s : SysState} {sc fc : Nat} {r : ACCOUNT}
    (ht : HTWF s.table) (hco : CoherentAt s.files r.UUID) :
    ∃ a, hash_find_account (pull_step s sc fc r).1.table r.UUID = some a
      ∧ a.BALANCE = r.BALANCE := by
  cases hr2 : (load_account s r.UUID).2 with
  | none =>
      rw [pull_step_eq_none (Prod.ext rfl hr2)]
      exact ⟨{ r with PASSWORD := 0 },
        find_update_self (load_account_WF ht r.UUID), rfl⟩
  | some la =>
      by_cases hbal : la.BALANCE = r.BALANCE
      · rw [pull_step_eq_some_eq (Prod.ext rfl hr2) hbal]
        exact ⟨la, load_account_found ht hco (Prod.ext rfl hr2), hbal⟩
      · rw [pull_step_eq_some_ne (Prod.ext rfl hr2) hbal]
        exact ⟨{ r with PASSWORD := la.PASSWORD },
          find_update_self (load_account_WF ht r.UUID), rfl⟩

theorem CoherentAt_of_lookup_eq {fs1 fs2 : List (String × CardFile)}
    {u : String} (h : lookupA fs1 u = lookupA fs2 u)
    (hco : CoherentAt fs2 u) : CoherentAt fs1 u :=
  fun f hf tok htok => hco f (h ▸ hf) tok htok

theorem pull_fold_find_ne (l : List ACCOUNT) (s : SysState) (sc fc : Nat)
    (u : String) (ht : HTWF s.table)
    (hco : ∀ r ∈ l, CoherentAt s.files r.UUID)
    (hnodup : (l.map ACCOUNT.UUID).Nodup)
    (hne : ∀ r ∈ l, u ≠ r.UUID) :
    hash_find_account (l.foldl pull_loop (s, sc, fc)).1.table u
      = hash_find_account s.table u := by
  induction l generalizing s sc fc with
  | nil => rfl
  | cons r l ih =>
      rw [List.map_cons] at hnodup
      have hsplit := List.nodup_cons.1 hnodup
      have hrne : ∀ r' ∈ l, r'.UUID ≠ r.UUID := fun r' hr' heq =>
        hsplit.1 (heq ▸ List.mem_map_of_mem ACCOUNT.UUID hr')
      rw [List.foldl_cons,
        show pull_loop (s, sc, fc) r
          = ((pull_step s sc fc r).1, (pull_step s sc fc r).2.1,
             (pull_step s sc fc r).2.2) from rfl]
      rw [ih (pull_step s sc fc r).1 _ _ (pull_step_WF ht)
        (fun r' hr' => CoherentAt_of_lookup_eq
          (pull_step_files_ne (hrne r' hr'))
          (hco r' (List.mem_cons_of_mem _ hr')))
        hsplit.2
        (fun r' hr' => hne r' (List.mem_cons_of_mem _ hr'))]
      exact pull_step_find_ne ht (hco r (List.mem_cons_self r l))
        (hne r (List.mem_cons_self r l))

theorem pull_fold_spec (l : List ACCOUNT) (s : SysState) (sc fc : Nat)
    (ht : HTWF s.table) (hnodup : (l.map ACCOUNT.UUID).Nodup)
    (hco : ∀ r ∈ l, CoherentAt s.files r.UUID) :
    HTWF (l.foldl pull_loop (s, sc, fc)).1.table
    ∧ (l.foldl pull_loop (s, sc, fc)).1.run_mode_server = s.run_mode_server
    ∧ ∀ r ∈ l, ∃ a,
        hash_find_account (l.foldl pull_loop (s, sc, fc)).1.table r.UUID
          = some a ∧ a.BALANCE = r.BALANCE := by
  induction l generalizing s sc fc with
  | nil => exact ⟨ht, rfl, by simp⟩
  | cons r l ih =>
      rw [List.map_cons] at hnodup
      have hsplit := List.nodup_cons.1 hnodup
      have hrne : ∀ r' ∈ l, r'.UUID ≠ r.UUID := fun r' hr' heq =>
        hsplit.1 (heq ▸ List.mem_map_of_mem ACCOUNT.UUID hr')
      have hco1 : ∀ r' ∈ l, CoherentAt (pull_step s sc fc r).1.files r'.UUID :=
        fun r' hr' => CoherentAt_of_lookup_eq
          (pull_step_files_ne (hrne r' hr'))
          (hco r' (List.mem_cons_of_mem _ hr'))
      obtain ⟨wf', hmode', hP'⟩ :=
        ih (pull_step s sc fc r).1 (pull_step s sc fc r).2.1
          (pull_step s sc fc r).2.2 (pull_step_WF ht) hsplit.2 hco1
      rw [List.foldl_cons,
        show pull_loop (s, sc, fc) r
          = ((pull_step s sc fc r).1, (pull_step s sc fc r).2.1,
             (pull_step s sc fc r).2.2) from rfl]
      refine ⟨wf', hmode'.trans pull_step_run_mode, ?_⟩
      intro r' hr'
      rcases List.mem_cons.1 hr' with rfl | hr'
      · obtain ⟨a, hfind, hbal⟩ :=
          @pull_step_establishes s sc fc r' ht
            (hco r' (List.mem_cons_self r' l))
        refine ⟨a, ?_, hbal⟩
        rw [pull_fold_find_ne l (pull_step s sc fc r').1 _ _ r'.UUID
          (pull_step_WF ht) hco1 hsplit.2
          (fun r'' hr'' => (hrne r'' hr'').symm)]
        exact hfind
      · exact hP' r' hr'

theorem pull_step_noop {s : SysState} {sc fc : Nat} {r : ACCOUNT}
    {a : ACCOUNT} (hfind : hash_find_account s.table r.UUID = some a)
    (hbal : a.BALANCE = r.BALANCE) :
    pull_step s sc fc r = (s, sc + 1, fc) :=
  pull_step_eq_some_eq (load_account_hit hfind) hbal

theorem pull_fold_stable (l : List ACCOUNT) (s : SysState) (sc fc : Nat)
    (hP : ∀ r ∈ l, ∃ a, hash_find_account s.table r.UUID = some a
      ∧ a.BALANCE = r.BALANCE) :
    (l.foldl pull_loop (s, sc, fc)).1 = s := by
  induction l generalizing sc fc with
  | nil => rfl
  | cons r l ih =>
      obtain ⟨a, hf, hb⟩ := hP r (List.mem_cons_self r l)
      rw [List.foldl_cons,
        show pull_loop (s, sc, fc) r = (s, sc + 1, fc) from
          pull_step_noop hf hb]
      exact ih _ _ (fun r' h => hP r' (List.mem_cons_of_mem _ h))

/-- **C9.** Pull idempotence: from any reachable local store (well-formed
hash table, card files whose identifier lines match their names) and any
remote dataset with pairwise distinct identifiers, running the pull step
twice in a row leaves the second run with zero local writes — the whole
local state after the second run equals the state after the first run; in
particular the file-write counter does not move. -/
theorem claim_C9_pull_idempotent (s : SysState) (remote : List ACCOUNT)
    (ht : HTWF s.table) (hnodup : (remote.map ACCOUNT.UUID).Nodup)
    (hco : ∀ r ∈ remote, CoherentAt s.files r.UUID) :
    (pull_accounts_from_server (pull_accounts_from_server s remote).1
        remote).1
      = (pull_accounts_from_server s remote).1
    ∧ (pull_accounts_from_server (pull_accounts_from_server s remote).1
        remote).1.file_writes
      = (pull_accounts_from_server s remote).1.file_writes := by
  suffices h : (pull_accounts_from_server
      (pull_accounts_from_server s remote).1 remote).1
      = (pull_accounts_from_server s remote).1 from ⟨h, by rw [h]⟩
  by_cases hm : s.run_mode_server = true
  · have hfst : (pull_accounts_from_server s remote).1
        = (remote.foldl pull_loop (s, 0, 0)).1 := by
      unfold pull_accounts_from_server
      rw [if_pos hm]
    obtain ⟨wf1, hmode1, hP1⟩ := pull_fold_spec remote s 0 0 ht hnodup hco
    rw [hfst]
    have hfst2 : (pull_accounts_from_server
        (remote.foldl pull_loop (s, 0, 0)).1 remote).1
        = (remote.foldl pull_loop
            ((remote.foldl pull_loop (s, 0, 0)).1, 0, 0)).1 := by
      unfold pull_accounts_from_server
      rw [if_pos (by rw [hmode1]; exact hm)]
    rw [hfst2]
    exact pull_fold_stable remote _ 0 0 hP1
  · have h1 : pull_accounts_from_server s remote = (s, 0) := by
      unfold pull_accounts_from_server
      rw [if_neg hm]
    rw [h1]
    show (pull_accounts_from_server s remote).1 = s
    rw [h1]

/-- A remote dataset of two accounts with distinct identifiers. -/
def c9_remote : List ACCOUNT := [⟨"r1", 0, 500⟩, ⟨"r2", 0, 900⟩]

theorem claim_C9_witness :
    (pull_accounts_from_server
        (pull_accounts_from_server fresh_state c9_remote).1 c9_remote).1
      = (pull_accounts_from_server fresh_state c9_remote).1
    ∧ (pull_accounts_from_server
        (pull_accounts_from_server fresh_state c9_remote).1
        c9_remote).1.file_writes
      = (pull_accounts_from_server fresh_state c9_remote).1.file_writes :=
  claim_C9_pull_idempotent fresh_state c9_remote init_WF (by decide)
    (by
      intro r hr f hf tok htok
      simp [fresh_state, lookupA] at hf)
